import Mathlib

/-!
# oci-nosql-example: the work-request poll loop of `runExample`

A shallow embedding of `runExample` (src/main.go, lines 30-164).

The program is a straight line of calls to a remote NoSQL service with one
unbounded `for` loop that polls a work request until table creation ends.
The remote service is the environment: it is embedded as a record holding,
for every call the program can make, the answer the service gives.
`GetWorkRequest` is called repeatedly, so its answers form a stream indexed
by the number of the poll (starting at 0); every other call is made at most
once per run.

The run is observed through its trace: the list of service calls and sleeps
in the order in which they happen.  Writes to standard output (`fmt.Println`,
`json.Encoder.Encode`) do not influence the control flow and are not part of
the trace.  Request payloads are constants built from `tableName` and the
`compartmentId` argument; they do not influence the control flow either.

The `for` loop has no bound, so the embedding takes a fuel argument: the
number of loop iterations the observer is willing to watch.  A run that is
still inside the loop when the fuel is used up is reported as such, together
with the trace so far.
-/

namespace OciNosqlExample

/-! ## Data model -/

/-- Go `error` value that is not nil, observed through its `Error()` message. -/
structure GoError where
  /-- The text returned by the `Error()` method. -/
  Error : String
  deriving DecidableEq, Repr

/-- Modelled from the spec: the type `nosql.WorkRequestStatusEnum` of the vendor SDK
(absent from src/), a string type: besides the six named constants every
other string is a value of it. -/
abbrev WorkRequestStatusEnum := String

/-- Modelled from the spec: the constant `nosql.WorkRequestStatusAccepted` of the vendor
SDK (absent from src/), the status the specification calls Accepted.  Only the
fact that the six constants are pairwise different strings is used. -/
def WorkRequestStatusAccepted : WorkRequestStatusEnum := "ACCEPTED"

/-- Modelled from the spec: the constant `nosql.WorkRequestStatusInProgress` of the vendor
SDK (absent from src/), the status the specification calls InProgress.  Only the
fact that the six constants are pairwise different strings is used. -/
def WorkRequestStatusInProgress : WorkRequestStatusEnum := "IN_PROGRESS"

/-- Modelled from the spec: the constant `nosql.WorkRequestStatusFailed` of the vendor
SDK (absent from src/), the status the specification calls Failed.  Only the
fact that the six constants are pairwise different strings is used. -/
def WorkRequestStatusFailed : WorkRequestStatusEnum := "FAILED"

/-- Modelled from the spec: the constant `nosql.WorkRequestStatusSucceeded` of the vendor
SDK (absent from src/), the status the specification calls Succeeded.  Only the
fact that the six constants are pairwise different strings is used. -/
def WorkRequestStatusSucceeded : WorkRequestStatusEnum := "SUCCEEDED"

/-- Modelled from the spec: the constant `nosql.WorkRequestStatusCanceling` of the vendor
SDK (absent from src/), the status the specification calls Canceling.  Only the
fact that the six constants are pairwise different strings is used. -/
def WorkRequestStatusCanceling : WorkRequestStatusEnum := "CANCELING"

/-- Modelled from the spec: the constant `nosql.WorkRequestStatusCanceled` of the vendor
SDK (absent from src/), the status the specification calls Canceled.  Only the
fact that the six constants are pairwise different strings is used. -/
def WorkRequestStatusCanceled : WorkRequestStatusEnum := "CANCELED"

/-- Go `time.Second`, a `time.Duration` counted in nanoseconds. -/
def Second : Nat := 1000000000

/-- Table name used by `runExample` (line 32). -/
def tableName : String := "unko"

/-- Observable events of a run: the seven service calls of the client and
`time.Sleep d`. -/
inductive Event where
  | CreateTable
  | GetWorkRequest
  | Sleep (d : Nat)
  | UpdateRow
  | GetRow
  | Query
  | DeleteRow
  | DeleteTable
  deriving DecidableEq, Repr

/-- The remote service as seen through `nosql.NosqlClient`: the error each
call returns (`none` is a nil error), and for the `k`-th `GetWorkRequest`
call (counted from 0) either an error or the status in the response. -/
structure NosqlClient where
  CreateTable : Option GoError
  GetWorkRequest : Nat → Except GoError WorkRequestStatusEnum
  UpdateRow : Option GoError
  GetRow : Option GoError
  Query : Option GoError
  DeleteRow : Option GoError
  DeleteTable : Option GoError

/-- Go formatting verb `%v` applied to an `error`: `<nil>` for the nil
error, the `Error()` text otherwise. -/
def fmtV : Option GoError → String
  | none => "<nil>"
  | some e => e.Error

/-- How the labelled `for` loop (lines 57-83) is left. -/
inductive LoopExit where
  /-- Taken `break loop` (line 76). -/
  | breakLoop
  /-- Taken a `return` with the given error (lines 64, 74, 81). -/
  | ret (err : GoError)
  /-- Still iterating when the observation stopped. -/
  | running
  deriving DecidableEq, Repr

/-- The labelled `for` loop of `runExample` (lines 57-83), observed for at
most `fuel` iterations; `k` is the number of polls issued before.  Returns
how the loop is left and the events it produced.  The `switch` has no
`default`: a status that matches no case falls out of the `switch` and the
`for` statement starts its next iteration. -/
def pollLoop (client : NosqlClient) : Nat → Nat → LoopExit × List Event
  | 0, _ => (LoopExit.running, [])
  | fuel + 1, k =>
    match client.GetWorkRequest k with
    | Except.error err =>
      (LoopExit.ret ⟨"failed to get work request " ++ tableName ++ ": " ++ fmtV (some err)⟩,
        [Event.GetWorkRequest])
    | Except.ok status =>
      if status = WorkRequestStatusAccepted then
        let r := pollLoop client fuel (k + 1)
        (r.1, Event.GetWorkRequest :: Event.Sleep Second :: r.2)
      else if status = WorkRequestStatusInProgress then
        let r := pollLoop client fuel (k + 1)
        (r.1, Event.GetWorkRequest :: Event.Sleep Second :: r.2)
      else if status = WorkRequestStatusFailed then
        (LoopExit.ret ⟨"failed to create table " ++ tableName ++ ": " ++ fmtV none⟩,
          [Event.GetWorkRequest])
      else if status = WorkRequestStatusSucceeded then
        (LoopExit.breakLoop, [Event.GetWorkRequest])
      else if status = WorkRequestStatusCanceling then
        let r := pollLoop client fuel (k + 1)
        (r.1, Event.GetWorkRequest :: Event.Sleep Second :: r.2)
      else if status = WorkRequestStatusCanceled then
        (LoopExit.ret ⟨"canceled to create table " ++ tableName ++ ": " ++ fmtV none⟩,
          [Event.GetWorkRequest])
      else
        let r := pollLoop client fuel (k + 1)
        (r.1, Event.GetWorkRequest :: r.2)

/-- Lines 85-163 of `runExample`: the statements after the loop. -/
def useTable (client : NosqlClient) : Option GoError × List Event :=
  match client.UpdateRow with
  | some err => (some ⟨"failed to put a row: " ++ fmtV (some err)⟩, [Event.UpdateRow])
  | none =>
    match client.GetRow with
    | some err =>
      (some ⟨"failed to get a row: " ++ fmtV (some err)⟩, [Event.UpdateRow, Event.GetRow])
    | none =>
      match client.Query with
      | some err =>
        (some ⟨"failed to execute query " ++
            "\"" ++ ("select * from " ++ tableName ++ " where cookie_id = 123") ++ "\"" ++
            ": " ++ fmtV (some err)⟩,
          [Event.UpdateRow, Event.GetRow, Event.Query])
      | none =>
        match client.DeleteRow with
        | some err =>
          (some ⟨"failed to delete a row: " ++ fmtV (some err)⟩,
            [Event.UpdateRow, Event.GetRow, Event.Query, Event.DeleteRow])
        | none =>
          match client.DeleteTable with
          | some err =>
            (some ⟨"failed to drop table " ++ tableName ++ ": " ++ fmtV (some err)⟩,
              [Event.UpdateRow, Event.GetRow, Event.Query, Event.DeleteRow, Event.DeleteTable])
          | none =>
            (none,
              [Event.UpdateRow, Event.GetRow, Event.Query, Event.DeleteRow, Event.DeleteTable])

/-- What an observer of `runExample` has seen: `result` is `none` while the
function has not returned, and `some r` once it returned `r` (`r = none` is
the nil error); `trace` lists the calls and sleeps so far. -/
structure Run where
  result : Option (Option GoError)
  trace : List Event
  deriving DecidableEq, Repr

/-- The function `runExample` (lines 30-164), with the poll loop observed for
at most `fuel` iterations. -/
def runExample (client : NosqlClient) (fuel : Nat) : Run :=
  match client.CreateTable with
  | some err =>
    ⟨some (some ⟨"failed to create table " ++ tableName ++ ": " ++ fmtV (some err)⟩),
      [Event.CreateTable]⟩
  | none =>
    match pollLoop client fuel 0 with
    | (LoopExit.running, es) => ⟨none, Event.CreateTable :: es⟩
    | (LoopExit.ret err, es) => ⟨some (some err), Event.CreateTable :: es⟩
    | (LoopExit.breakLoop, es) =>
      let r := useTable client
      ⟨some r.1, Event.CreateTable :: (es ++ r.2)⟩

/-- Number of `GetWorkRequest` calls in a trace. -/
def polls (tr : List Event) : Nat := tr.count Event.GetWorkRequest

/-- Total duration slept in a trace, in nanoseconds. -/
def slept : List Event → Nat
  | [] => 0
  | Event.Sleep d :: tr => d + slept tr
  | _ :: tr => slept tr

/-- The three statuses on which the loop sleeps and polls again. -/
def IsPending (s : WorkRequestStatusEnum) : Prop :=
  s = WorkRequestStatusAccepted ∨ s = WorkRequestStatusInProgress ∨
    s = WorkRequestStatusCanceling

/-- The three statuses on which the loop is left. -/
def IsTerminal (s : WorkRequestStatusEnum) : Prop :=
  s = WorkRequestStatusSucceeded ∨ s = WorkRequestStatusFailed ∨
    s = WorkRequestStatusCanceled

/-- A status that is none of the six constants of the enumeration. -/
def IsUnnamed (s : WorkRequestStatusEnum) : Prop :=
  ¬ IsPending s ∧ ¬ IsTerminal s

/-- A poll answer after which the loop iterates again: a successful query
whose status is not one of the three terminal ones. -/
def Continues (r : Except GoError WorkRequestStatusEnum) : Prop :=
  ∃ s, r = Except.ok s ∧ ¬ IsTerminal s

/-- Events of `n` iterations that each poll and then sleep one second. -/
def waitTrace : Nat → List Event
  | 0 => []
  | n + 1 => Event.GetWorkRequest :: Event.Sleep Second :: waitTrace n

/-- The error returned when the work request reports status Failed (line 74). -/
def errFailed : GoError := ⟨"failed to create table unko: <nil>"⟩

/-- The error returned when the work request reports status Canceled (line 81). -/
def errCanceled : GoError := ⟨"canceled to create table unko: <nil>"⟩

/-- The error returned when the status query itself fails with `e` (line 64). -/
def errQuery (e : GoError) : GoError := ⟨"failed to get work request unko: " ++ e.Error⟩

/-- Whether an event is one of the five calls that use the table. -/
def usesTable : Event → Bool
  | Event.UpdateRow => true
  | Event.GetRow => true
  | Event.Query => true
  | Event.DeleteRow => true
  | Event.DeleteTable => true
  | _ => false

/-! ## Example services -/

/-- Poll answers given by a finite list, followed by `rest` forever. -/
def script (answers : List (Except GoError WorkRequestStatusEnum))
    (rest : Except GoError WorkRequestStatusEnum) (k : Nat) :
    Except GoError WorkRequestStatusEnum :=
  answers.getD k rest

/-- A service whose polls are answered by `poll` and whose other calls all
succeed. -/
def serviceOf (poll : Nat → Except GoError WorkRequestStatusEnum) : NosqlClient :=
  ⟨none, poll, none, none, none, none, none⟩

/-- Polls answered Accepted, InProgress, Succeeded. -/
def threePolls : NosqlClient :=
  serviceOf (script [Except.ok WorkRequestStatusAccepted, Except.ok WorkRequestStatusInProgress]
    (Except.ok WorkRequestStatusSucceeded))

/-- The first poll is answered Failed. -/
def failsAtOnce : NosqlClient :=
  serviceOf (script [] (Except.ok WorkRequestStatusFailed))

/-- The first poll is answered Canceled. -/
def canceledAtOnce : NosqlClient :=
  serviceOf (script [] (Except.ok WorkRequestStatusCanceled))

/-- The first poll is answered Accepted, the second fails with `boom`. -/
def queryBreaks : NosqlClient :=
  serviceOf (script [Except.ok WorkRequestStatusAccepted] (Except.error ⟨"boom"⟩))

/-- Every poll is answered Accepted. -/
def alwaysAccepted : NosqlClient :=
  serviceOf (fun _ => Except.ok WorkRequestStatusAccepted)

/-- Every poll is answered Canceling. -/
def alwaysCanceling : NosqlClient :=
  serviceOf (fun _ => Except.ok WorkRequestStatusCanceling)

/-- Every poll is answered with the empty string as status. -/
def alwaysEmpty : NosqlClient :=
  serviceOf (fun _ => Except.ok "")

/-- Polls answered Canceling, Accepted, Succeeded. -/
def threePollsOther : NosqlClient :=
  serviceOf (script [Except.ok WorkRequestStatusCanceling, Except.ok WorkRequestStatusAccepted]
    (Except.ok WorkRequestStatusSucceeded))

/-- The wait succeeds at the first poll and `Query` fails with `boom`. -/
def queryCallFails : NosqlClient :=
  ⟨none, fun _ => Except.ok WorkRequestStatusSucceeded, none, none, some ⟨"boom"⟩, none, none⟩

/-- Whether an event is a service call (and not a sleep). -/
def isCall : Event → Bool
  | Event.Sleep _ => false
  | _ => true

/-- The service calls of a trace, in order. -/
def calls (tr : List Event) : List Event := tr.filter isCall

/-- Whether the service answers the call `c` with an error when `c` is
issued after `i` earlier calls of the same kind. -/
def callFails (client : NosqlClient) : Event → Nat → Prop
  | Event.CreateTable, _ => client.CreateTable ≠ none
  | Event.GetWorkRequest, i => ∃ e, client.GetWorkRequest i = Except.error e
  | Event.Sleep _, _ => False
  | Event.UpdateRow, _ => client.UpdateRow ≠ none
  | Event.GetRow, _ => client.GetRow ≠ none
  | Event.Query, _ => client.Query ≠ none
  | Event.DeleteRow, _ => client.DeleteRow ≠ none
  | Event.DeleteTable, _ => client.DeleteTable ≠ none

/-- The wait of `runExample` succeeds within `fuel` polls: some poll is
answered Succeeded and every earlier poll is answered by a continuing status. -/
def WaitSucceeds (client : NosqlClient) (fuel : Nat) : Prop :=
  ∃ n, n < fuel ∧ (∀ j, j < n → Continues (client.GetWorkRequest j)) ∧
    client.GetWorkRequest n = Except.ok WorkRequestStatusSucceeded

/-- The wait of `runExample` reaches poll number `n` (counted from 0) within
`fuel` polls and that poll is answered by `r`: `CreateTable` succeeded and
every earlier poll is answered by a continuing status. -/
def StopsWith (client : NosqlClient) (fuel n : Nat)
    (r : Except GoError WorkRequestStatusEnum) : Prop :=
  client.CreateTable = none ∧ n < fuel ∧
    (∀ j, j < n → Continues (client.GetWorkRequest j)) ∧ client.GetWorkRequest n = r

/-- The five calls that use the table, in the order of the source
(lines 102, 113, 131, 146, 157). -/
def tableCallOrder : List Event :=
  [Event.UpdateRow, Event.GetRow, Event.Query, Event.DeleteRow, Event.DeleteTable]

/-- How many of the five table calls a run that reaches them has to issue:
all calls up to and including the first one the service answers with an
error, and all five when none fails. -/
def tableCalls (client : NosqlClient) : Nat :=
  match client.UpdateRow, client.GetRow, client.Query, client.DeleteRow with
  | some _, _, _, _ => 1
  | none, some _, _, _ => 2
  | none, none, some _, _ => 3
  | none, none, none, some _ => 4
  | none, none, none, none => 5

/-! ## One iteration of the loop -/

theorem pollLoop_zero (client : NosqlClient) (k : Nat) :
    pollLoop client 0 k = (LoopExit.running, []) := rfl

theorem pollLoop_error (client : NosqlClient) (fuel k : Nat) (e : GoError)
    (h : client.GetWorkRequest k = Except.error e) :
    pollLoop client (fuel + 1) k = (LoopExit.ret (errQuery e), [Event.GetWorkRequest]) := by
  simp only [pollLoop, h]
  rfl

theorem pollLoop_failed (client : NosqlClient) (fuel k : Nat)
    (h : client.GetWorkRequest k = Except.ok WorkRequestStatusFailed) :
    pollLoop client (fuel + 1) k = (LoopExit.ret errFailed, [Event.GetWorkRequest]) := by
  simp only [pollLoop, h]
  rfl

theorem pollLoop_canceled (client : NosqlClient) (fuel k : Nat)
    (h : client.GetWorkRequest k = Except.ok WorkRequestStatusCanceled) :
    pollLoop client (fuel + 1) k = (LoopExit.ret errCanceled, [Event.GetWorkRequest]) := by
  simp only [pollLoop, h]
  rfl

theorem pollLoop_succeeded (client : NosqlClient) (fuel k : Nat)
    (h : client.GetWorkRequest k = Except.ok WorkRequestStatusSucceeded) :
    pollLoop client (fuel + 1) k = (LoopExit.breakLoop, [Event.GetWorkRequest]) := by
  simp only [pollLoop, h]
  rfl

theorem pollLoop_pending (client : NosqlClient) (fuel k : Nat) (s : WorkRequestStatusEnum)
    (h : client.GetWorkRequest k = Except.ok s) (hs : IsPending s) :
    pollLoop client (fuel + 1) k =
      ((pollLoop client fuel (k + 1)).1,
        Event.GetWorkRequest :: Event.Sleep Second :: (pollLoop client fuel (k + 1)).2) := by
  simp only [pollLoop, h]
  rcases hs with hs | hs | hs <;> subst hs <;> rfl

theorem pollLoop_unnamed (client : NosqlClient) (fuel k : Nat) (s : WorkRequestStatusEnum)
    (h : client.GetWorkRequest k = Except.ok s) (hs : IsUnnamed s) :
    pollLoop client (fuel + 1) k =
      ((pollLoop client fuel (k + 1)).1,
        Event.GetWorkRequest :: (pollLoop client fuel (k + 1)).2) := by
  simp only [pollLoop, h]
  simp only [IsUnnamed, IsPending, IsTerminal, not_or] at hs
  obtain ⟨⟨h1, h2, h3⟩, h4, h5, h6⟩ := hs
  simp only [h1, h2, h3, h4, h5, h6, if_false]

theorem pollLoop_continue (client : NosqlClient) (fuel k : Nat) (s : WorkRequestStatusEnum)
    (h : client.GetWorkRequest k = Except.ok s) (hs : ¬ IsTerminal s) :
    ∃ pre, (pre = [] ∨ pre = [Event.Sleep Second]) ∧
      pollLoop client (fuel + 1) k =
        ((pollLoop client fuel (k + 1)).1,
          Event.GetWorkRequest :: (pre ++ (pollLoop client fuel (k + 1)).2)) := by
  by_cases hp : IsPending s
  · exact ⟨[Event.Sleep Second], Or.inr rfl, pollLoop_pending client fuel k s h hp⟩
  · exact ⟨[], Or.inl rfl, pollLoop_unnamed client fuel k s h ⟨hp, hs⟩⟩

/-! ## Facts about traces -/

theorem polls_nil : polls [] = 0 := rfl

theorem polls_cons_poll (tr : List Event) :
    polls (Event.GetWorkRequest :: tr) = polls tr + 1 := by
  simp [polls]

theorem polls_cons_sleep (d : Nat) (tr : List Event) :
    polls (Event.Sleep d :: tr) = polls tr := by
  simp [polls]

theorem polls_append (a b : List Event) : polls (a ++ b) = polls a + polls b := by
  simp [polls]

theorem polls_waitTrace (n : Nat) : polls (waitTrace n) = n := by
  induction n with
  | zero => rfl
  | succ n ih => simp [waitTrace, polls_cons_poll, polls_cons_sleep, ih]

theorem slept_append (a b : List Event) : slept (a ++ b) = slept a + slept b := by
  induction a with
  | nil => simp [slept]
  | cons ev a ih => cases ev <;> simp [slept, ih, Nat.add_assoc]

theorem slept_waitTrace (n : Nat) : slept (waitTrace n) = n * Second := by
  induction n with
  | zero => simp [waitTrace, slept]
  | succ n ih => simp [waitTrace, slept, ih, Nat.succ_mul, Nat.add_comm]

/-! ## Several iterations -/

theorem pollLoop_pending_steps (client : NosqlClient) (n fuel k : Nat)
    (h : ∀ j, j < n → ∃ s, client.GetWorkRequest (k + j) = Except.ok s ∧ IsPending s) :
    pollLoop client (n + fuel) k =
      ((pollLoop client fuel (k + n)).1, waitTrace n ++ (pollLoop client fuel (k + n)).2) := by
  induction n generalizing k with
  | zero => simp [waitTrace]
  | succ n ih =>
    obtain ⟨s, hs, hp⟩ := h 0 (Nat.succ_pos n)
    have hstep : n + 1 + fuel = (n + fuel) + 1 := by omega
    have hrest : ∀ j, j < n →
        ∃ s, client.GetWorkRequest (k + 1 + j) = Except.ok s ∧ IsPending s := by
      intro j hj
      have := h (j + 1) (Nat.succ_lt_succ hj)
      rwa [show k + (j + 1) = k + 1 + j by omega] at this
    rw [hstep, pollLoop_pending client (n + fuel) k s hs hp, ih (k + 1) hrest]
    rw [show k + 1 + n = k + (n + 1) by omega]
    rfl

theorem pollLoop_events (client : NosqlClient) (fuel k : Nat) :
    ∀ ev, ev ∈ (pollLoop client fuel k).2 →
      ev = Event.GetWorkRequest ∨ ev = Event.Sleep Second := by
  induction fuel generalizing k with
  | zero => intro ev hev; simp [pollLoop] at hev
  | succ fuel ih =>
    intro ev hev
    cases hq : client.GetWorkRequest k with
    | error e =>
      rw [pollLoop_error client fuel k e hq] at hev
      simp at hev
      exact Or.inl hev
    | ok s =>
      by_cases ht : IsTerminal s
      · rcases ht with ht | ht | ht
        · subst ht
          rw [pollLoop_succeeded client fuel k hq] at hev
          simp at hev
          exact Or.inl hev
        · subst ht
          rw [pollLoop_failed client fuel k hq] at hev
          simp at hev
          exact Or.inl hev
        · subst ht
          rw [pollLoop_canceled client fuel k hq] at hev
          simp at hev
          exact Or.inl hev
      · obtain ⟨pre, hpre, heq⟩ := pollLoop_continue client fuel k s hq ht
        rw [heq] at hev
        simp only [List.mem_cons, List.mem_append] at hev
        rcases hev with hev | hev | hev
        · exact Or.inl hev
        · rcases hpre with hpre | hpre
          · subst hpre; simp at hev
          · subst hpre; simp at hev; exact Or.inr hev
        · exact ih (k + 1) ev hev

theorem getLast?_cons_append_of_ne_nil (a : Event) (pre rest : List Event)
    (h : rest ≠ []) : (a :: (pre ++ rest)).getLast? = rest.getLast? := by
  have h1 : a :: (pre ++ rest) = (a :: pre) ++ rest := rfl
  rw [h1, List.getLast?_append]
  cases hr : rest.getLast? with
  | none => exact absurd (List.getLast?_eq_none_iff.mp hr) h
  | some x => simp

/-- Every observation of the loop is of one of two kinds: the loop is still
running and every poll so far was answered by a continuing status, or the
loop was left at poll number `k + n`, the first one whose answer does not
continue, in the way that answer prescribes. -/
theorem pollLoop_classify (client : NosqlClient) (fuel k : Nat) :
    ((pollLoop client fuel k).1 = LoopExit.running ∧
        polls (pollLoop client fuel k).2 = fuel ∧
        ∀ j, j < fuel → Continues (client.GetWorkRequest (k + j))) ∨
    ∃ n, n < fuel ∧ (∀ j, j < n → Continues (client.GetWorkRequest (k + j))) ∧
      polls (pollLoop client fuel k).2 = n + 1 ∧
      (pollLoop client fuel k).2.getLast? = some Event.GetWorkRequest ∧
      ((client.GetWorkRequest (k + n) = Except.ok WorkRequestStatusSucceeded ∧
          (pollLoop client fuel k).1 = LoopExit.breakLoop) ∨
        (client.GetWorkRequest (k + n) = Except.ok WorkRequestStatusFailed ∧
          (pollLoop client fuel k).1 = LoopExit.ret errFailed) ∨
        (client.GetWorkRequest (k + n) = Except.ok WorkRequestStatusCanceled ∧
          (pollLoop client fuel k).1 = LoopExit.ret errCanceled) ∨
        ∃ e, client.GetWorkRequest (k + n) = Except.error e ∧
          (pollLoop client fuel k).1 = LoopExit.ret (errQuery e)) := by
  induction fuel generalizing k with
  | zero =>
    left
    refine ⟨rfl, rfl, ?_⟩
    intro j hj
    exact absurd hj (Nat.not_lt_zero j)
  | succ fuel ih =>
    cases hq : client.GetWorkRequest k with
    | error e =>
      right
      refine ⟨0, Nat.succ_pos fuel, ?_, ?_, ?_, ?_⟩
      · intro j hj; exact absurd hj (Nat.not_lt_zero j)
      · rw [pollLoop_error client fuel k e hq]; rfl
      · rw [pollLoop_error client fuel k e hq]; rfl
      · right; right; right
        exact ⟨e, hq, by rw [pollLoop_error client fuel k e hq]⟩
    | ok s =>
      by_cases ht : IsTerminal s
      · right
        refine ⟨0, Nat.succ_pos fuel, ?_, ?_, ?_, ?_⟩
        · intro j hj; exact absurd hj (Nat.not_lt_zero j)
        · rcases ht with ht | ht | ht <;> subst ht
          · rw [pollLoop_succeeded client fuel k hq]; rfl
          · rw [pollLoop_failed client fuel k hq]; rfl
          · rw [pollLoop_canceled client fuel k hq]; rfl
        · rcases ht with ht | ht | ht <;> subst ht
          · rw [pollLoop_succeeded client fuel k hq]; rfl
          · rw [pollLoop_failed client fuel k hq]; rfl
          · rw [pollLoop_canceled client fuel k hq]; rfl
        · rcases ht with ht | ht | ht <;> subst ht
          · left
            exact ⟨hq, by rw [pollLoop_succeeded client fuel k hq]⟩
          · right; left
            exact ⟨hq, by rw [pollLoop_failed client fuel k hq]⟩
          · right; right; left
            exact ⟨hq, by rw [pollLoop_canceled client fuel k hq]⟩
      · obtain ⟨pre, hpre, heq⟩ := pollLoop_continue client fuel k s hq ht
        have hpolls : polls (Event.GetWorkRequest :: (pre ++ (pollLoop client fuel (k + 1)).2)) =
            polls (pollLoop client fuel (k + 1)).2 + 1 := by
          rcases hpre with hpre | hpre <;> subst hpre <;>
            simp [polls_cons_poll, polls_cons_sleep]
        have hcont : ∀ m, (∀ j, j < m → Continues (client.GetWorkRequest (k + 1 + j))) →
            ∀ j, j < m + 1 → Continues (client.GetWorkRequest (k + j)) := by
          intro m hm j hj
          cases j with
          | zero => exact ⟨s, hq, ht⟩
          | succ j =>
            have := hm j (Nat.lt_of_succ_lt_succ hj)
            rwa [show k + 1 + j = k + (j + 1) by omega] at this
        rcases ih (k + 1) with ⟨hrun, hcount, hall⟩ | ⟨n, hn, hall, hcount, hlast, hend⟩
        · left
          rw [heq]
          refine ⟨hrun, ?_, hcont fuel hall⟩
          rw [hpolls, hcount]
        · right
          rw [heq]
          refine ⟨n + 1, Nat.succ_lt_succ hn, hcont n hall, ?_, ?_, ?_⟩
          · rw [hpolls, hcount]
          · have hne : (pollLoop client fuel (k + 1)).2 ≠ [] := by
              intro h0
              rw [h0] at hlast
              simp at hlast
            rw [getLast?_cons_append_of_ne_nil _ _ _ hne, hlast]
          · rw [show k + (n + 1) = k + 1 + n by omega]
            exact hend

/-! ## The loop started at poll 0 -/

/-- The loop is left at the first poll whose answer does not continue. -/
theorem pollLoop_stops_at (client : NosqlClient) (fuel n : Nat) (hn : n < fuel)
    (hall : ∀ j, j < n → Continues (client.GetWorkRequest j))
    (hstop : ¬ Continues (client.GetWorkRequest n)) :
    polls (pollLoop client fuel 0).2 = n + 1 ∧
      (pollLoop client fuel 0).2.getLast? = some Event.GetWorkRequest ∧
      ((client.GetWorkRequest n = Except.ok WorkRequestStatusSucceeded ∧
          (pollLoop client fuel 0).1 = LoopExit.breakLoop) ∨
        (client.GetWorkRequest n = Except.ok WorkRequestStatusFailed ∧
          (pollLoop client fuel 0).1 = LoopExit.ret errFailed) ∨
        (client.GetWorkRequest n = Except.ok WorkRequestStatusCanceled ∧
          (pollLoop client fuel 0).1 = LoopExit.ret errCanceled) ∨
        ∃ e, client.GetWorkRequest n = Except.error e ∧
          (pollLoop client fuel 0).1 = LoopExit.ret (errQuery e)) := by
  rcases pollLoop_classify client fuel 0 with ⟨_, _, hrun⟩ | ⟨m, hm, hmall, hcount, hlast, hend⟩
  · have := hrun n hn
    rw [Nat.zero_add] at this
    exact absurd this hstop
  · simp only [Nat.zero_add] at hmall hend
    have hmn : m = n := by
      rcases Nat.lt_trichotomy m n with hlt | heq | hgt
      · exfalso
        obtain ⟨s, hs, hnt⟩ := hall m hlt
        rcases hend with ⟨h, _⟩ | ⟨h, _⟩ | ⟨h, _⟩ | ⟨e, h, _⟩
        · rw [h] at hs
          injection hs with hs
          exact hnt (Or.inl hs.symm)
        · rw [h] at hs
          injection hs with hs
          exact hnt (Or.inr (Or.inl hs.symm))
        · rw [h] at hs
          injection hs with hs
          exact hnt (Or.inr (Or.inr hs.symm))
        · rw [h] at hs
          cases hs
      · exact heq
      · exact absurd (hmall n hgt) hstop
    subst hmn
    exact ⟨hcount, hlast, hend⟩

theorem not_continues_error (e : GoError) :
    ¬ Continues (Except.error e : Except GoError WorkRequestStatusEnum) := by
  rintro ⟨s, hs, _⟩
  cases hs

theorem not_continues_terminal (s : WorkRequestStatusEnum) (hs : IsTerminal s) :
    ¬ Continues (Except.ok s : Except GoError WorkRequestStatusEnum) := by
  rintro ⟨t, ht, hnt⟩
  injection ht with ht
  exact hnt (ht ▸ hs)

theorem not_terminal_of_pending (s : WorkRequestStatusEnum) (hs : IsPending s) :
    ¬ IsTerminal s := by
  rcases hs with hs | hs | hs <;> subst hs <;>
    simp only [IsTerminal, WorkRequestStatusAccepted, WorkRequestStatusInProgress,
      WorkRequestStatusCanceling, WorkRequestStatusSucceeded, WorkRequestStatusFailed,
      WorkRequestStatusCanceled] <;> decide

theorem continues_of_pending (r : Except GoError WorkRequestStatusEnum)
    (h : ∃ s, r = Except.ok s ∧ IsPending s) : Continues r := by
  obtain ⟨s, hs, hp⟩ := h
  exact ⟨s, hs, not_terminal_of_pending s hp⟩

/-! ## The whole of `runExample` -/

/-- The error returned when `CreateTable` fails with `e` (line 53). -/
theorem runExample_create_failed (client : NosqlClient) (fuel : Nat) (e : GoError)
    (h : client.CreateTable = some e) :
    runExample client fuel =
      ⟨some (some ⟨"failed to create table unko: " ++ e.Error⟩), [Event.CreateTable]⟩ := by
  simp only [runExample, h]
  rfl

theorem runExample_running (client : NosqlClient) (fuel : Nat)
    (h : client.CreateTable = none) (hp : (pollLoop client fuel 0).1 = LoopExit.running) :
    runExample client fuel = ⟨none, Event.CreateTable :: (pollLoop client fuel 0).2⟩ := by
  cases hq : pollLoop client fuel 0 with
  | mk ex es =>
    rw [hq] at hp
    simp only at hp
    subst hp
    simp only [runExample, h, hq]

theorem runExample_ret (client : NosqlClient) (fuel : Nat) (err : GoError)
    (h : client.CreateTable = none) (hp : (pollLoop client fuel 0).1 = LoopExit.ret err) :
    runExample client fuel =
      ⟨some (some err), Event.CreateTable :: (pollLoop client fuel 0).2⟩ := by
  cases hq : pollLoop client fuel 0 with
  | mk ex es =>
    rw [hq] at hp
    simp only at hp
    subst hp
    simp only [runExample, h, hq]

theorem runExample_break (client : NosqlClient) (fuel : Nat)
    (h : client.CreateTable = none) (hp : (pollLoop client fuel 0).1 = LoopExit.breakLoop) :
    runExample client fuel =
      ⟨some (useTable client).1,
        Event.CreateTable :: ((pollLoop client fuel 0).2 ++ (useTable client).2)⟩ := by
  cases hq : pollLoop client fuel 0 with
  | mk ex es =>
    rw [hq] at hp
    simp only at hp
    subst hp
    simp only [runExample, h, hq]

theorem useTable_polls (client : NosqlClient) : polls (useTable client).2 = 0 := by
  unfold useTable
  cases client.UpdateRow <;> cases client.GetRow <;> cases client.Query <;>
    cases client.DeleteRow <;> cases client.DeleteTable <;> rfl

/-- After `n` pending answers the loop is at poll `n` with `n` pairs of a
poll and a sleep behind it. -/
theorem pollLoop_after_pending (client : NosqlClient) (n fuel : Nat) (hfuel : n < fuel)
    (hpend : ∀ j, j < n → ∃ s, client.GetWorkRequest j = Except.ok s ∧ IsPending s) :
    pollLoop client fuel 0 =
      ((pollLoop client (fuel - n - 1 + 1) n).1,
        waitTrace n ++ (pollLoop client (fuel - n - 1 + 1) n).2) := by
  have h := pollLoop_pending_steps client n (fuel - n - 1 + 1) 0
    (by intro j hj; rw [Nat.zero_add]; exact hpend j hj)
  rw [Nat.zero_add] at h
  rw [← h]
  congr 1
  omega

/-! ## Waiting for a terminal status -/

/-- C1: for every sequence of `n` pending statuses (Accepted, InProgress or
Canceling) followed by one terminal status, every status query succeeding,
the poll loop of `runExample` observed for more than `n` iterations has
issued exactly `n + 1` polls and is left as the terminal status prescribes:
Succeeded breaks out of the loop without error, Failed returns the error
`failed to create table unko: <nil>`, Canceled returns the error
`canceled to create table unko: <nil>`; when `CreateTable` succeeded these
are the polls and the returned error of `runExample` itself. -/
theorem poll_count_and_outcome (client : NosqlClient) (n fuel : Nat)
    (t : WorkRequestStatusEnum) (hfuel : n < fuel)
    (hpend : ∀ j, j < n → ∃ s, client.GetWorkRequest j = Except.ok s ∧ IsPending s)
    (hlast : client.GetWorkRequest n = Except.ok t) (hterm : IsTerminal t) :
    polls (pollLoop client fuel 0).2 = n + 1 ∧
    (t = WorkRequestStatusSucceeded → (pollLoop client fuel 0).1 = LoopExit.breakLoop) ∧
    (t = WorkRequestStatusFailed →
      (pollLoop client fuel 0).1 = LoopExit.ret ⟨"failed to create table unko: <nil>"⟩) ∧
    (t = WorkRequestStatusCanceled →
      (pollLoop client fuel 0).1 = LoopExit.ret ⟨"canceled to create table unko: <nil>"⟩) ∧
    (client.CreateTable = none →
      polls (runExample client fuel).trace = n + 1 ∧
      (t = WorkRequestStatusSucceeded →
        (runExample client fuel).result = some (useTable client).1) ∧
      (t = WorkRequestStatusFailed →
        (runExample client fuel).result =
          some (some ⟨"failed to create table unko: <nil>"⟩)) ∧
      (t = WorkRequestStatusCanceled →
        (runExample client fuel).result =
          some (some ⟨"canceled to create table unko: <nil>"⟩))) := by
  have hsteps := pollLoop_after_pending client n fuel hfuel hpend
  have hcount : polls (pollLoop client fuel 0).2 = n + 1 := by
    rw [hsteps]
    rcases hterm with ht | ht | ht <;> subst ht
    · rw [pollLoop_succeeded client _ n hlast]
      simp [polls_append, polls_waitTrace, polls_cons_poll, polls_nil]
    · rw [pollLoop_failed client _ n hlast]
      simp [polls_append, polls_waitTrace, polls_cons_poll, polls_nil]
    · rw [pollLoop_canceled client _ n hlast]
      simp [polls_append, polls_waitTrace, polls_cons_poll, polls_nil]
  have hS : t = WorkRequestStatusSucceeded → (pollLoop client fuel 0).1 = LoopExit.breakLoop := by
    intro ht
    subst ht
    rw [hsteps, pollLoop_succeeded client _ n hlast]
  have hF : t = WorkRequestStatusFailed →
      (pollLoop client fuel 0).1 = LoopExit.ret errFailed := by
    intro ht
    subst ht
    rw [hsteps, pollLoop_failed client _ n hlast]
  have hC : t = WorkRequestStatusCanceled →
      (pollLoop client fuel 0).1 = LoopExit.ret errCanceled := by
    intro ht
    subst ht
    rw [hsteps, pollLoop_canceled client _ n hlast]
  refine ⟨hcount, hS, hF, hC, ?_⟩
  intro hcreate
  refine ⟨?_, ?_, ?_, ?_⟩
  · rcases hterm with ht | ht | ht
    · rw [runExample_break client fuel hcreate (hS ht)]
      have h1 : polls (Event.CreateTable ::
          ((pollLoop client fuel 0).2 ++ (useTable client).2)) =
          polls (pollLoop client fuel 0).2 + polls (useTable client).2 := by
        simp [polls]
      simp only [h1, hcount, useTable_polls, Nat.add_zero]
    · rw [runExample_ret client fuel _ hcreate (hF ht)]
      have h1 : polls (Event.CreateTable :: (pollLoop client fuel 0).2) =
          polls (pollLoop client fuel 0).2 := by
        simp [polls]
      simp only [h1, hcount]
    · rw [runExample_ret client fuel _ hcreate (hC ht)]
      have h1 : polls (Event.CreateTable :: (pollLoop client fuel 0).2) =
          polls (pollLoop client fuel 0).2 := by
        simp [polls]
      simp only [h1, hcount]
  · intro ht
    rw [runExample_break client fuel hcreate (hS ht)]
  · intro ht
    rw [runExample_ret client fuel _ hcreate (hF ht)]
    rfl
  · intro ht
    rw [runExample_ret client fuel _ hcreate (hC ht)]
    rfl

theorem threePolls_pending :
    ∀ j, j < 2 → ∃ s, threePolls.GetWorkRequest j = Except.ok s ∧ IsPending s := by
  intro j hj
  interval_cases j
  · exact ⟨WorkRequestStatusAccepted, rfl, Or.inl rfl⟩
  · exact ⟨WorkRequestStatusInProgress, rfl, Or.inr (Or.inl rfl)⟩

/-- Witness of C1: the answers Accepted, InProgress, Succeeded give three
polls and leave the loop by `break`. -/
theorem poll_count_and_outcome_witness :
    polls (pollLoop threePolls 3 0).2 = 3 ∧
      (pollLoop threePolls 3 0).1 = LoopExit.breakLoop ∧
      (runExample threePolls 3).result = some none :=
  have h := poll_count_and_outcome threePolls 2 3 WorkRequestStatusSucceeded (by decide)
    threePolls_pending rfl (Or.inl rfl)
  ⟨h.1, h.2.1 rfl, (h.2.2.2.2 rfl).2.1 rfl⟩

/-- C8: after `n` pending statuses followed by a terminal one, the loop has
produced `n` pairs of a poll and a sleep of one second (10^9 ns), then the
final poll with no sleep after it: the total sleep is `n` seconds. -/
theorem sleeps_once_per_pending (client : NosqlClient) (n fuel : Nat)
    (t : WorkRequestStatusEnum) (hfuel : n < fuel)
    (hpend : ∀ j, j < n → ∃ s, client.GetWorkRequest j = Except.ok s ∧ IsPending s)
    (hlast : client.GetWorkRequest n = Except.ok t) (hterm : IsTerminal t) :
    (pollLoop client fuel 0).2 = waitTrace n ++ [Event.GetWorkRequest] ∧
      slept (pollLoop client fuel 0).2 = n * Second ∧
      polls (pollLoop client fuel 0).2 = n + 1 ∧
      Second = 1000000000 := by
  have htrace : (pollLoop client fuel 0).2 = waitTrace n ++ [Event.GetWorkRequest] := by
    rw [pollLoop_after_pending client n fuel hfuel hpend]
    rcases hterm with ht | ht | ht <;> subst ht
    · rw [pollLoop_succeeded client _ n hlast]
    · rw [pollLoop_failed client _ n hlast]
    · rw [pollLoop_canceled client _ n hlast]
  refine ⟨htrace, ?_, ?_, rfl⟩
  · rw [htrace, slept_append, slept_waitTrace]
    simp [slept]
  · rw [htrace, polls_append, polls_waitTrace]
    rfl

/-- Witness of C8: the two scenarios of the specification.  Accepted,
InProgress, Succeeded gives three polls and two seconds of sleep; Failed at
the first poll gives one poll and no sleep. -/
theorem sleeps_once_per_pending_witness :
    ((pollLoop threePolls 3 0).2 =
        [Event.GetWorkRequest, Event.Sleep Second, Event.GetWorkRequest, Event.Sleep Second,
          Event.GetWorkRequest] ∧
      slept (pollLoop threePolls 3 0).2 = 2 * Second ∧
      polls (pollLoop threePolls 3 0).2 = 3) ∧
    ((pollLoop failsAtOnce 1 0).2 = [Event.GetWorkRequest] ∧
      slept (pollLoop failsAtOnce 1 0).2 = 0 ∧
      polls (pollLoop failsAtOnce 1 0).2 = 1) :=
  have h3 := sleeps_once_per_pending threePolls 2 3 WorkRequestStatusSucceeded (by decide)
    threePolls_pending rfl (Or.inl rfl)
  have h1 := sleeps_once_per_pending failsAtOnce 0 1 WorkRequestStatusFailed (by decide)
    (fun j hj => absurd hj (Nat.not_lt_zero j)) rfl (Or.inr (Or.inl rfl))
  ⟨⟨h3.1, h3.2.1, h3.2.2.1⟩, ⟨h1.1, by rw [h1.2.1]; rfl, h1.2.2.1⟩⟩

/-- What `runExample` does when poll number `n` (counted from 0) is the first
one that does not continue and it is a failed query. -/
theorem runExample_query_error (client : NosqlClient) (n fuel : Nat) (e : GoError)
    (hfuel : n < fuel) (hcreate : client.CreateTable = none)
    (hprev : ∀ j, j < n → Continues (client.GetWorkRequest j))
    (herr : client.GetWorkRequest n = Except.error e) :
    runExample client fuel =
        ⟨some (some (errQuery e)), Event.CreateTable :: (pollLoop client fuel 0).2⟩ ∧
      polls (pollLoop client fuel 0).2 = n + 1 ∧
      (pollLoop client fuel 0).2.getLast? = some Event.GetWorkRequest := by
  have hstop : ¬ Continues (client.GetWorkRequest n) := by
    rw [herr]
    exact not_continues_error e
  obtain ⟨hcount, hlast, hend⟩ := pollLoop_stops_at client fuel n hfuel hprev hstop
  refine ⟨?_, hcount, hlast⟩
  rcases hend with ⟨h, _⟩ | ⟨h, _⟩ | ⟨h, _⟩ | ⟨e2, h, hex⟩
  · rw [herr] at h; cases h
  · rw [herr] at h; cases h
  · rw [herr] at h; cases h
  · rw [herr] at h
    injection h with h
    subst h
    exact runExample_ret client fuel _ hcreate hex

theorem polls_cons_create (tr : List Event) :
    polls (Event.CreateTable :: tr) = polls tr := by
  simp [polls]

theorem getLast?_cons_of_getLast? (a b : Event) (tr : List Event)
    (h : tr.getLast? = some b) : (a :: tr).getLast? = some b := by
  have hne : tr ≠ [] := by
    intro h0
    rw [h0] at h
    simp at h
  have := getLast?_cons_append_of_ne_nil a [] tr hne
  rw [List.nil_append] at this
  rw [this, h]

/-- C2: for every `k ≥ 1`, when `CreateTable` succeeded, the first `k - 1`
polls are answered by continuing statuses and poll number `k` fails with
error `e`, `runExample` observed for at least `k` iterations has returned a
non-nil error, has issued exactly `k` polls, and the failing poll is the last
event of its trace: no poll, no sleep and no other service call follows it.
When the first `k - 1` statuses are pending ones the trace is `CreateTable`,
`k - 1` pairs of a poll and a sleep, and the failing poll. -/
theorem query_error_stops (client : NosqlClient) (k fuel : Nat) (e : GoError)
    (hk : 1 ≤ k) (hfuel : k ≤ fuel) (hcreate : client.CreateTable = none)
    (hprev : ∀ j, j < k - 1 → Continues (client.GetWorkRequest j))
    (herr : client.GetWorkRequest (k - 1) = Except.error e) :
    (∃ err, (runExample client fuel).result = some (some err)) ∧
      polls (runExample client fuel).trace = k ∧
      (runExample client fuel).trace.getLast? = some Event.GetWorkRequest ∧
      (∀ ev, ev ∈ (runExample client fuel).trace → usesTable ev = false) ∧
      ((∀ j, j < k - 1 → ∃ s, client.GetWorkRequest j = Except.ok s ∧ IsPending s) →
        (runExample client fuel).trace =
          Event.CreateTable :: (waitTrace (k - 1) ++ [Event.GetWorkRequest])) := by
  have hlt : k - 1 < fuel := by omega
  obtain ⟨hrun, hcount, hlast⟩ :=
    runExample_query_error client (k - 1) fuel e hlt hcreate hprev herr
  rw [hrun]
  refine ⟨⟨errQuery e, rfl⟩, ?_, ?_, ?_, ?_⟩
  · show polls (Event.CreateTable :: (pollLoop client fuel 0).2) = k
    rw [polls_cons_create, hcount]
    omega
  · exact getLast?_cons_of_getLast? _ _ _ hlast
  · intro ev hev
    rcases List.mem_cons.mp hev with h | h
    · subst h; rfl
    · rcases pollLoop_events client fuel 0 ev h with h | h <;> subst h <;> rfl
  · intro hpend
    show Event.CreateTable :: (pollLoop client fuel 0).2 = _
    rw [pollLoop_after_pending client (k - 1) fuel hlt hpend,
      pollLoop_error client _ (k - 1) e herr]

theorem queryBreaks_continues : ∀ j, j < 2 - 1 → Continues (queryBreaks.GetWorkRequest j) := by
  intro j hj
  have hj0 : j = 0 := by omega
  subst hj0
  exact continues_of_pending _ ⟨WorkRequestStatusAccepted, rfl, Or.inl rfl⟩

/-- Witness of C2: Accepted, then a failed query at poll 2. -/
theorem query_error_stops_witness :
    polls (runExample queryBreaks 2).trace = 2 ∧
      (runExample queryBreaks 2).trace.getLast? = some Event.GetWorkRequest ∧
      (∃ err, (runExample queryBreaks 2).result = some (some err)) :=
  have h := query_error_stops queryBreaks 2 2 ⟨"boom"⟩ (by decide) (by decide) rfl
    queryBreaks_continues rfl
  ⟨h.2.1, h.2.2.1, h.1⟩

theorem errQuery_ne_self (e : GoError) : errQuery e ≠ e := by
  intro h
  have h2 := congrArg (fun x => x.Error.length) h
  simp only [errQuery, String.length_append] at h2
  have h3 : "failed to get work request unko: ".length = 33 := by decide
  omega

/-- C3, as stated, fails: when the second poll fails with the error `boom`,
`runExample` returns an error whose message is
`failed to get work request unko: boom`, which is not the error `boom`. -/
theorem query_error_not_returned_unchanged :
    queryBreaks.GetWorkRequest 1 = Except.error ⟨"boom"⟩ ∧
      (runExample queryBreaks 2).result =
        some (some ⟨"failed to get work request unko: boom"⟩) ∧
      (runExample queryBreaks 2).result ≠ some (some ⟨"boom"⟩) := by
  refine ⟨rfl, ?_, ?_⟩ <;> decide

/-- C3, amended: when `CreateTable` succeeded, the polls before poll number
`n` are answered by continuing statuses and poll number `n` fails with error
`e`, `runExample` returns a new error whose message is
`failed to get work request unko: ` followed by the message of `e`; the
returned error is never `e` itself. -/
theorem query_error_wrapped (client : NosqlClient) (n fuel : Nat) (e : GoError)
    (hfuel : n < fuel) (hcreate : client.CreateTable = none)
    (hprev : ∀ j, j < n → Continues (client.GetWorkRequest j))
    (herr : client.GetWorkRequest n = Except.error e) :
    (runExample client fuel).result =
        some (some ⟨"failed to get work request unko: " ++ e.Error⟩) ∧
      (runExample client fuel).result ≠ some (some e) := by
  obtain ⟨hrun, _, _⟩ := runExample_query_error client n fuel e hfuel hcreate hprev herr
  rw [hrun]
  refine ⟨rfl, ?_⟩
  intro h
  have h1 : errQuery e = e := Option.some.inj (Option.some.inj h)
  exact errQuery_ne_self e h1

/-- Witness of C3 (amended): Accepted, then a query failing with `boom`. -/
theorem query_error_wrapped_witness :
    (runExample queryBreaks 2).result =
        some (some ⟨"failed to get work request unko: " ++ "boom"⟩) ∧
      (runExample queryBreaks 2).result ≠ some (some ⟨"boom"⟩) :=
  query_error_wrapped queryBreaks 1 2 ⟨"boom"⟩ (by decide) rfl
    (fun j hj => by
      have hj0 : j = 0 := by omega
      subst hj0
      exact continues_of_pending _ ⟨WorkRequestStatusAccepted, rfl, Or.inl rfl⟩)
    rfl

/-- A stream of pending answers keeps the loop running for ever. -/
theorem pollLoop_pending_forever (client : NosqlClient)
    (h : ∀ k, ∃ s, client.GetWorkRequest k = Except.ok s ∧ IsPending s) (fuel : Nat) :
    pollLoop client fuel 0 = (LoopExit.running, waitTrace fuel) := by
  have h1 := pollLoop_pending_steps client fuel 0 0 (fun j _ => h (0 + j))
  rw [Nat.add_zero] at h1
  rw [h1, pollLoop_zero]
  simp

/-- C4, as stated, fails: every poll of `alwaysAccepted` is answered by the
pending status Accepted, and no number of iterations ends the loop or makes
`runExample` return. -/
theorem no_poll_bound :
    (∀ k, ∃ s, alwaysAccepted.GetWorkRequest k = Except.ok s ∧ IsPending s) ∧
      (¬ ∃ fuel, (pollLoop alwaysAccepted fuel 0).1 ≠ LoopExit.running) ∧
      (¬ ∃ fuel, (runExample alwaysAccepted fuel).result ≠ none) := by
  have hall : ∀ k, ∃ s, alwaysAccepted.GetWorkRequest k = Except.ok s ∧ IsPending s :=
    fun _ => ⟨WorkRequestStatusAccepted, rfl, Or.inl rfl⟩
  refine ⟨hall, ?_, ?_⟩
  · rintro ⟨fuel, hne⟩
    rw [pollLoop_pending_forever alwaysAccepted hall fuel] at hne
    exact hne rfl
  · rintro ⟨fuel, hne⟩
    have hrun : (pollLoop alwaysAccepted fuel 0).1 = LoopExit.running := by
      rw [pollLoop_pending_forever alwaysAccepted hall fuel]
    rw [runExample_running alwaysAccepted fuel rfl hrun] at hne
    exact hne rfl

/-- C4, amended: `runExample` has no maximum attempt count and no deadline.
On a stream of answers that are all pending (Accepted, InProgress or
Canceling) the poll loop never ends: after any number `fuel` of iterations it
is still running, having issued `fuel` polls and slept `fuel` seconds, and
`runExample` has not returned. -/
theorem pending_forever_never_returns (client : NosqlClient)
    (h : ∀ k, ∃ s, client.GetWorkRequest k = Except.ok s ∧ IsPending s) (fuel : Nat) :
    pollLoop client fuel 0 = (LoopExit.running, waitTrace fuel) ∧
      polls (pollLoop client fuel 0).2 = fuel ∧
      slept (pollLoop client fuel 0).2 = fuel * Second ∧
      (client.CreateTable = none → (runExample client fuel).result = none) := by
  have hrun := pollLoop_pending_forever client h fuel
  refine ⟨hrun, ?_, ?_, ?_⟩
  · rw [hrun]; exact polls_waitTrace fuel
  · rw [hrun]; exact slept_waitTrace fuel
  · intro hcreate
    rw [runExample_running client fuel hcreate (by rw [hrun])]

/-- Witness of C4 (amended): every poll answered Canceling, watched for four
iterations. -/
theorem pending_forever_never_returns_witness :
    (pollLoop alwaysCanceling 4 0).1 = LoopExit.running ∧
      polls (pollLoop alwaysCanceling 4 0).2 = 4 ∧
      slept (pollLoop alwaysCanceling 4 0).2 = 4 * Second ∧
      (runExample alwaysCanceling 4).result = none :=
  have h := pending_forever_never_returns alwaysCanceling
    (fun _ => ⟨WorkRequestStatusCanceling, rfl, Or.inr (Or.inr rfl)⟩) 4
  ⟨by rw [h.1], h.2.1, h.2.2.1, h.2.2.2 rfl⟩

theorem failed_ne_succeeded : WorkRequestStatusFailed ≠ WorkRequestStatusSucceeded := by
  decide

theorem failed_ne_canceled : WorkRequestStatusFailed ≠ WorkRequestStatusCanceled := by
  decide

theorem canceled_ne_succeeded : WorkRequestStatusCanceled ≠ WorkRequestStatusSucceeded := by
  decide

/-- What `runExample` returns when the first poll that does not continue is
answered Failed or Canceled. -/
theorem runExample_status_stop (client : NosqlClient) (n fuel : Nat)
    (hfuel : n < fuel) (hcreate : client.CreateTable = none)
    (hprev : ∀ j, j < n → Continues (client.GetWorkRequest j)) :
    (client.GetWorkRequest n = Except.ok WorkRequestStatusFailed →
        runExample client fuel =
          ⟨some (some errFailed), Event.CreateTable :: (pollLoop client fuel 0).2⟩) ∧
      (client.GetWorkRequest n = Except.ok WorkRequestStatusCanceled →
        runExample client fuel =
          ⟨some (some errCanceled), Event.CreateTable :: (pollLoop client fuel 0).2⟩) := by
  constructor
  · intro hq
    have hstop : ¬ Continues (client.GetWorkRequest n) := by
      rw [hq]
      exact not_continues_terminal _ (Or.inr (Or.inl rfl))
    obtain ⟨_, _, hend⟩ := pollLoop_stops_at client fuel n hfuel hprev hstop
    rcases hend with ⟨h, _⟩ | ⟨_, hex⟩ | ⟨h, _⟩ | ⟨e2, h, _⟩
    · rw [hq] at h; exact absurd (Except.ok.inj h) failed_ne_succeeded
    · exact runExample_ret client fuel _ hcreate hex
    · rw [hq] at h; exact absurd (Except.ok.inj h) failed_ne_canceled
    · rw [hq] at h; cases h
  · intro hq
    have hstop : ¬ Continues (client.GetWorkRequest n) := by
      rw [hq]
      exact not_continues_terminal _ (Or.inr (Or.inr rfl))
    obtain ⟨_, _, hend⟩ := pollLoop_stops_at client fuel n hfuel hprev hstop
    rcases hend with ⟨h, _⟩ | ⟨h, _⟩ | ⟨_, hex⟩ | ⟨e2, h, _⟩
    · rw [hq] at h; exact absurd (Except.ok.inj h) canceled_ne_succeeded
    · rw [hq] at h; exact absurd (Except.ok.inj h) failed_ne_canceled.symm
    · exact runExample_ret client fuel _ hcreate hex
    · rw [hq] at h; cases h

theorem msg_failed_ne_query (m : String) :
    "failed to create table unko: <nil>" ≠ "failed to get work request unko: " ++ m := by
  intro h
  have h2 := congrArg (fun s => s.data.get? 10) h
  simp only [String.data_append] at h2
  have h3 : some 'c' = some 'g' := h2
  exact absurd h3 (by decide)

theorem msg_canceled_ne_query (m : String) :
    "canceled to create table unko: <nil>" ≠ "failed to get work request unko: " ++ m := by
  intro h
  have h2 := congrArg (fun s => s.data.get? 0) h
  simp only [String.data_append] at h2
  have h3 : some 'c' = some 'f' := h2
  exact absurd h3 (by decide)

/-- C7: take three runs of `runExample` whose waits end, respectively, with
the status Failed, with the status Canceled and with a status query failing
with error `e`.  Each run returns a non-nil error, and the messages of the
three errors are pairwise different, whatever `e` is. -/
theorem wait_errors_distinct (cF cC cE : NosqlClient) (fuel nF nC nE : Nat) (e : GoError)
    (hF : StopsWith cF fuel nF (Except.ok WorkRequestStatusFailed))
    (hC : StopsWith cC fuel nC (Except.ok WorkRequestStatusCanceled))
    (hE : StopsWith cE fuel nE (Except.error e)) :
    ∃ eF eC eE,
      (runExample cF fuel).result = some (some eF) ∧
      (runExample cC fuel).result = some (some eC) ∧
      (runExample cE fuel).result = some (some eE) ∧
      eF.Error ≠ eC.Error ∧ eF.Error ≠ eE.Error ∧ eC.Error ≠ eE.Error ∧
      eF.Error = "failed to create table unko: <nil>" ∧
      eC.Error = "canceled to create table unko: <nil>" ∧
      eE.Error = "failed to get work request unko: " ++ e.Error := by
  obtain ⟨hFc, hFn, hFp, hFq⟩ := hF
  obtain ⟨hCc, hCn, hCp, hCq⟩ := hC
  obtain ⟨hEc, hEn, hEp, hEq⟩ := hE
  refine ⟨errFailed, errCanceled, errQuery e, ?_, ?_, ?_, ?_, ?_, ?_, rfl, rfl, rfl⟩
  · rw [(runExample_status_stop cF nF fuel hFn hFc hFp).1 hFq]
  · rw [(runExample_status_stop cC nC fuel hCn hCc hCp).2 hCq]
  · rw [(runExample_query_error cE nE fuel e hEn hEc hEp hEq).1]
  · show "failed to create table unko: <nil>" ≠ "canceled to create table unko: <nil>"
    decide
  · exact msg_failed_ne_query e.Error
  · exact msg_canceled_ne_query e.Error

/-- Witness of C7: Failed at the first poll, Canceled at the first poll, and
a query failing with `boom` at the second poll. -/
theorem wait_errors_distinct_witness :
    ∃ eF eC eE,
      (runExample failsAtOnce 2).result = some (some eF) ∧
      (runExample canceledAtOnce 2).result = some (some eC) ∧
      (runExample queryBreaks 2).result = some (some eE) ∧
      eF.Error ≠ eC.Error ∧ eF.Error ≠ eE.Error ∧ eC.Error ≠ eE.Error :=
  have ⟨eF, eC, eE, h1, h2, h3, h4, h5, h6, _⟩ :=
    wait_errors_distinct failsAtOnce canceledAtOnce queryBreaks 2 0 0 1 ⟨"boom"⟩
      ⟨rfl, by decide, fun j hj => absurd hj (Nat.not_lt_zero j), rfl⟩
      ⟨rfl, by decide, fun j hj => absurd hj (Nat.not_lt_zero j), rfl⟩
      ⟨rfl, by decide, fun j hj => by
        have hj0 : j = 0 := by omega
        subst hj0
        exact continues_of_pending _ ⟨WorkRequestStatusAccepted, rfl, Or.inl rfl⟩, rfl⟩
  ⟨eF, eC, eE, h1, h2, h3, h4, h5, h6⟩

theorem slept_replicate_poll (n : Nat) :
    slept (List.replicate n Event.GetWorkRequest) = 0 := by
  induction n with
  | zero => rfl
  | succ n ih => simp [List.replicate_succ, slept, ih]

theorem polls_replicate_poll (n : Nat) :
    polls (List.replicate n Event.GetWorkRequest) = n := by
  simp [polls]

/-- A stream that repeats one unnamed status keeps the loop polling without
any sleep. -/
theorem pollLoop_unnamed_forever (client : NosqlClient) (s : WorkRequestStatusEnum)
    (hs : IsUnnamed s) (hall : ∀ j, client.GetWorkRequest j = Except.ok s)
    (fuel k : Nat) :
    pollLoop client fuel k = (LoopExit.running, List.replicate fuel Event.GetWorkRequest) := by
  induction fuel generalizing k with
  | zero => rfl
  | succ fuel ih =>
    rw [pollLoop_unnamed client fuel k s (hall k) hs, ih (k + 1)]
    rfl

theorem isUnnamed_empty : IsUnnamed "" := by
  simp only [IsUnnamed, IsPending, IsTerminal, WorkRequestStatusAccepted,
    WorkRequestStatusInProgress, WorkRequestStatusCanceling, WorkRequestStatusSucceeded,
    WorkRequestStatusFailed, WorkRequestStatusCanceled]
  decide

/-- C9: let poll number `k` be answered by a status `s` that is none of the
six named statuses (the empty string is one).  Then that iteration neither
returns nor sleeps: the loop goes on with poll `k + 1` and the iteration
contributes the poll alone to the trace.  When every poll is answered by
`s`, the loop is still running after any number `fuel` of iterations, with
`fuel` polls, no sleep at all, and `runExample` has not returned. -/
theorem unnamed_status_polls_again (client : NosqlClient) (k : Nat)
    (s : WorkRequestStatusEnum) (hk : client.GetWorkRequest k = Except.ok s)
    (hs : IsUnnamed s) :
    IsUnnamed "" ∧
    (∀ fuel, pollLoop client (fuel + 1) k =
      ((pollLoop client fuel (k + 1)).1,
        Event.GetWorkRequest :: (pollLoop client fuel (k + 1)).2)) ∧
    ((∀ j, client.GetWorkRequest j = Except.ok s) →
      ∀ fuel,
        pollLoop client fuel 0 =
          (LoopExit.running, List.replicate fuel Event.GetWorkRequest) ∧
        polls (pollLoop client fuel 0).2 = fuel ∧
        slept (pollLoop client fuel 0).2 = 0 ∧
        (client.CreateTable = none → (runExample client fuel).result = none)) := by
  refine ⟨isUnnamed_empty, fun fuel => pollLoop_unnamed client fuel k s hk hs, ?_⟩
  intro hall fuel
  have hrun := pollLoop_unnamed_forever client s hs hall fuel 0
  refine ⟨hrun, ?_, ?_, ?_⟩
  · rw [hrun]; exact polls_replicate_poll fuel
  · rw [hrun]; exact slept_replicate_poll fuel
  · intro hcreate
    rw [runExample_running client fuel hcreate (by rw [hrun])]

/-- Witness of C9: every poll answered with the empty status, watched for
three iterations. -/
theorem unnamed_status_polls_again_witness :
    pollLoop alwaysEmpty 3 0 =
        (LoopExit.running,
          [Event.GetWorkRequest, Event.GetWorkRequest, Event.GetWorkRequest]) ∧
      slept (pollLoop alwaysEmpty 3 0).2 = 0 ∧
      (runExample alwaysEmpty 3).result = none :=
  have h := (unnamed_status_polls_again alwaysEmpty 0 "" rfl isUnnamed_empty).2.2
    (fun _ => rfl) 3
  ⟨h.1, h.2.2.1, h.2.2.2 rfl⟩

/-- Two streams that differ only by exchanging pending statuses drive the
loop in the same way. -/
theorem pollLoop_congr_pending (c1 c2 : NosqlClient)
    (h : ∀ k, c1.GetWorkRequest k = c2.GetWorkRequest k ∨
      ∃ s1 s2, c1.GetWorkRequest k = Except.ok s1 ∧ c2.GetWorkRequest k = Except.ok s2 ∧
        IsPending s1 ∧ IsPending s2)
    (fuel k : Nat) : pollLoop c1 fuel k = pollLoop c2 fuel k := by
  induction fuel generalizing k with
  | zero => rfl
  | succ fuel ih =>
    rcases h k with heq | ⟨s1, s2, h1, h2, hp1, hp2⟩
    · simp only [pollLoop, heq, ih (k + 1)]
    · rw [pollLoop_pending c1 fuel k s1 h1 hp1, pollLoop_pending c2 fuel k s2 h2 hp2,
        ih (k + 1)]

/-- C6: let two streams of poll answers agree everywhere except that, at
any position, one pending status (Accepted, InProgress or Canceling) may be
replaced by another pending status.  Then the poll loop behaves identically
on both: same exit, same trace, hence the same number of polls and the same
sleeps.  Each pending answer costs one poll followed by one sleep of one
second, after which the loop polls again. -/
theorem pending_statuses_interchangeable (c1 c2 : NosqlClient)
    (h : ∀ k, c1.GetWorkRequest k = c2.GetWorkRequest k ∨
      ∃ s1 s2, c1.GetWorkRequest k = Except.ok s1 ∧ c2.GetWorkRequest k = Except.ok s2 ∧
        IsPending s1 ∧ IsPending s2)
    (fuel : Nat) :
    pollLoop c1 fuel 0 = pollLoop c2 fuel 0 ∧
      polls (pollLoop c1 fuel 0).2 = polls (pollLoop c2 fuel 0).2 ∧
      slept (pollLoop c1 fuel 0).2 = slept (pollLoop c2 fuel 0).2 ∧
      (∀ k s, c1.GetWorkRequest k = Except.ok s → IsPending s →
        ∀ f, pollLoop c1 (f + 1) k =
          ((pollLoop c1 f (k + 1)).1,
            Event.GetWorkRequest :: Event.Sleep Second :: (pollLoop c1 f (k + 1)).2)) := by
  have heq := pollLoop_congr_pending c1 c2 h fuel 0
  refine ⟨heq, by rw [heq], by rw [heq], ?_⟩
  intro k s hk hs f
  exact pollLoop_pending c1 f k s hk hs

/-- Witness of C6: Accepted, InProgress, Succeeded against Canceling,
Accepted, Succeeded. -/
theorem pending_statuses_interchangeable_witness :
    pollLoop threePolls 5 0 = pollLoop threePollsOther 5 0 ∧
      (pollLoop threePollsOther 5 0).1 = LoopExit.breakLoop ∧
      polls (pollLoop threePollsOther 5 0).2 = 3 :=
  have h := pending_statuses_interchangeable threePolls threePollsOther
    (fun k => match k with
      | 0 => Or.inr ⟨WorkRequestStatusAccepted, WorkRequestStatusCanceling, rfl, rfl,
          Or.inl rfl, Or.inr (Or.inr rfl)⟩
      | 1 => Or.inr ⟨WorkRequestStatusInProgress, WorkRequestStatusAccepted, rfl, rfl,
          Or.inr (Or.inl rfl), Or.inl rfl⟩
      | _ + 2 => Or.inl rfl) 5
  ⟨h.1, by decide, by decide⟩

/-! ## The shape of a run and the use of the table -/

theorem runExample_shape (client : NosqlClient) (fuel : Nat) :
    (∃ e, client.CreateTable = some e ∧
        runExample client fuel =
          ⟨some (some ⟨"failed to create table unko: " ++ e.Error⟩), [Event.CreateTable]⟩) ∨
    (client.CreateTable = none ∧ (pollLoop client fuel 0).1 = LoopExit.running ∧
        runExample client fuel = ⟨none, Event.CreateTable :: (pollLoop client fuel 0).2⟩) ∨
    (client.CreateTable = none ∧ ∃ err, (pollLoop client fuel 0).1 = LoopExit.ret err ∧
        runExample client fuel =
          ⟨some (some err), Event.CreateTable :: (pollLoop client fuel 0).2⟩) ∨
    (client.CreateTable = none ∧ (pollLoop client fuel 0).1 = LoopExit.breakLoop ∧
        runExample client fuel =
          ⟨some (useTable client).1,
            Event.CreateTable :: ((pollLoop client fuel 0).2 ++ (useTable client).2)⟩) := by
  cases hc : client.CreateTable with
  | some e => exact Or.inl ⟨e, rfl, runExample_create_failed client fuel e hc⟩
  | none =>
    right
    cases hx : (pollLoop client fuel 0).1 with
    | running => exact Or.inl ⟨rfl, rfl, runExample_running client fuel hc hx⟩
    | ret err => exact Or.inr (Or.inl ⟨rfl, err, rfl, runExample_ret client fuel err hc hx⟩)
    | breakLoop => exact Or.inr (Or.inr ⟨rfl, rfl, runExample_break client fuel hc hx⟩)

theorem pollLoop_break (client : NosqlClient) (fuel : Nat)
    (h : (pollLoop client fuel 0).1 = LoopExit.breakLoop) :
    ∃ n, n < fuel ∧ (∀ j, j < n → Continues (client.GetWorkRequest j)) ∧
      client.GetWorkRequest n = Except.ok WorkRequestStatusSucceeded ∧
      polls (pollLoop client fuel 0).2 = n + 1 := by
  rcases pollLoop_classify client fuel 0 with ⟨hrun, _, _⟩ | ⟨n, hn, hall, hcount, _, hend⟩
  · rw [h] at hrun; cases hrun
  · simp only [Nat.zero_add] at hall hend
    refine ⟨n, hn, hall, ?_, hcount⟩
    rcases hend with ⟨hq, _⟩ | ⟨_, hx⟩ | ⟨_, hx⟩ | ⟨e, _, hx⟩
    · exact hq
    · rw [h] at hx; cases hx
    · rw [h] at hx; cases hx
    · rw [h] at hx; cases hx

theorem pollLoop_break_of_waitSucceeds (client : NosqlClient) (fuel : Nat)
    (h : WaitSucceeds client fuel) : (pollLoop client fuel 0).1 = LoopExit.breakLoop := by
  obtain ⟨n, hn, hall, hq⟩ := h
  have hstop : ¬ Continues (client.GetWorkRequest n) := by
    rw [hq]
    exact not_continues_terminal _ (Or.inl rfl)
  obtain ⟨_, _, hend⟩ := pollLoop_stops_at client fuel n hn hall hstop
  rcases hend with ⟨_, hx⟩ | ⟨h1, _⟩ | ⟨h1, _⟩ | ⟨e, h1, _⟩
  · exact hx
  · rw [hq] at h1; exact absurd (Except.ok.inj h1) failed_ne_succeeded.symm
  · rw [hq] at h1; exact absurd (Except.ok.inj h1) canceled_ne_succeeded.symm
  · rw [hq] at h1; cases h1

theorem waitSucceeds_iff_break (client : NosqlClient) (fuel : Nat) :
    WaitSucceeds client fuel ↔ (pollLoop client fuel 0).1 = LoopExit.breakLoop := by
  constructor
  · exact pollLoop_break_of_waitSucceeds client fuel
  · intro h
    obtain ⟨n, hn, hall, hq, _⟩ := pollLoop_break client fuel h
    exact ⟨n, hn, hall, hq⟩

theorem wait_events_no_table (client : NosqlClient) (fuel : Nat) :
    ∀ ev, ev ∈ Event.CreateTable :: (pollLoop client fuel 0).2 → usesTable ev = false := by
  intro ev hev
  rcases List.mem_cons.mp hev with h | h
  · subst h; rfl
  · rcases pollLoop_events client fuel 0 ev h with h | h <;> subst h <;> rfl

/-- Splitting a list `A ++ B` at an element that does not occur in `A`
splits `B`. -/
theorem split_after_prefix (A B pre post : List Event) (c : Event)
    (h : A ++ B = pre ++ c :: post) (hc : c ∉ A) :
    ∃ mid, pre = A ++ mid ∧ B = mid ++ c :: post := by
  rcases List.append_eq_append_iff.mp h with ⟨mid, h1, h2⟩ | ⟨mid, h1, h2⟩
  · exact ⟨mid, h1, h2⟩
  · cases mid with
    | nil =>
      refine ⟨[], ?_, ?_⟩
      · simpa using h1.symm
      · simpa using h2.symm
    | cons x mid =>
      exfalso
      have hx : c = x := by
        have := h2
        simp only [List.cons_append, List.cons.injEq] at this
        exact this.1
      apply hc
      rw [h1, hx]
      simp

/-- C5: in every run of `runExample`, a call that uses the table
(`UpdateRow`, `GetRow`, `Query`, `DeleteRow`, `DeleteTable`) occurs in the
trace only after a poll that was answered Succeeded; and when the first poll
that does not continue is answered Failed or Canceled, or is a failed query,
no such call occurs in the trace at all. -/
theorem table_used_only_after_success (client : NosqlClient) (fuel : Nat) :
    (∀ pre c post, (runExample client fuel).trace = pre ++ c :: post →
        usesTable c = true →
        ∃ j, j < polls pre ∧
          client.GetWorkRequest j = Except.ok WorkRequestStatusSucceeded) ∧
    (∀ n, (∀ j, j < n → Continues (client.GetWorkRequest j)) →
        (client.GetWorkRequest n = Except.ok WorkRequestStatusFailed ∨
          client.GetWorkRequest n = Except.ok WorkRequestStatusCanceled ∨
          ∃ e, client.GetWorkRequest n = Except.error e) →
        ∀ ev, ev ∈ (runExample client fuel).trace → usesTable ev = false) := by
  constructor
  · intro pre c post hsplit huse
    have hmem : c ∈ (runExample client fuel).trace := by
      rw [hsplit]; simp
    rcases runExample_shape client fuel with
      ⟨e, _, hrun⟩ | ⟨_, _, hrun⟩ | ⟨_, err, _, hrun⟩ | ⟨_, hx, hrun⟩
    · rw [hrun] at hmem
      simp only [List.mem_singleton] at hmem
      subst hmem
      cases huse
    · rw [hrun] at hmem
      rw [wait_events_no_table client fuel c hmem] at huse
      cases huse
    · rw [hrun] at hmem
      rw [wait_events_no_table client fuel c hmem] at huse
      cases huse
    · obtain ⟨n, _, _, hq, hcount⟩ := pollLoop_break client fuel hx
      rw [hrun] at hsplit
      have hnot : c ∉ Event.CreateTable :: (pollLoop client fuel 0).2 := by
        intro hin
        rw [wait_events_no_table client fuel c hin] at huse
        cases huse
      have hsplit2 : (Event.CreateTable :: (pollLoop client fuel 0).2) ++ (useTable client).2 =
          pre ++ c :: post := hsplit
      obtain ⟨mid, hpre, _⟩ := split_after_prefix _ _ pre post c hsplit2 hnot
      refine ⟨n, ?_, hq⟩
      rw [hpre, polls_append, polls_cons_create, hcount]
      omega
  · intro n hall hstop ev hev
    have hnot : ¬ Continues (client.GetWorkRequest n) := by
      rcases hstop with h | h | ⟨e, h⟩
      · rw [h]; exact not_continues_terminal _ (Or.inr (Or.inl rfl))
      · rw [h]; exact not_continues_terminal _ (Or.inr (Or.inr rfl))
      · rw [h]; exact not_continues_error e
    rcases runExample_shape client fuel with
      ⟨e, _, hrun⟩ | ⟨_, _, hrun⟩ | ⟨_, err, _, hrun⟩ | ⟨_, hx, _⟩
    · rw [hrun] at hev
      simp only [List.mem_singleton] at hev
      subst hev
      rfl
    · rw [hrun] at hev
      exact wait_events_no_table client fuel ev hev
    · rw [hrun] at hev
      exact wait_events_no_table client fuel ev hev
    · exfalso
      obtain ⟨m, _, hmall, hq, _⟩ := pollLoop_break client fuel hx
      rcases Nat.lt_trichotomy m n with hlt | heq | hgt
      · have := hall m hlt
        rw [hq] at this
        exact not_continues_terminal _ (Or.inl rfl) this
      · subst heq
        rcases hstop with h | h | ⟨e, h⟩
        · rw [hq] at h; exact failed_ne_succeeded.symm (Except.ok.inj h)
        · rw [hq] at h; exact canceled_ne_succeeded.symm (Except.ok.inj h)
        · rw [hq] at h; cases h
      · exact hnot (hmall n hgt)

/-- Witness of C5: when the wait succeeds at the first poll, `UpdateRow`
comes after that poll; when the first poll is answered Failed, no call uses
the table. -/
theorem table_used_only_after_success_witness :
    (∃ j, j < polls [Event.CreateTable, Event.GetWorkRequest] ∧
        queryCallFails.GetWorkRequest j = Except.ok WorkRequestStatusSucceeded) ∧
      (∀ ev, ev ∈ (runExample failsAtOnce 3).trace → usesTable ev = false) :=
  ⟨(table_used_only_after_success queryCallFails 1).1
      [Event.CreateTable, Event.GetWorkRequest] Event.UpdateRow [Event.GetRow, Event.Query]
      (by decide) rfl,
    (table_used_only_after_success failsAtOnce 3).2 0
      (fun j hj => absurd hj (Nat.not_lt_zero j)) (Or.inl rfl)⟩

/-! ## The calls after the wait -/

theorem useTable_nil_iff (client : NosqlClient) :
    (useTable client).1 = none ↔
      client.UpdateRow = none ∧ client.GetRow = none ∧ client.Query = none ∧
        client.DeleteRow = none ∧ client.DeleteTable = none := by
  unfold useTable
  cases client.UpdateRow <;> cases client.GetRow <;> cases client.Query <;>
    cases client.DeleteRow <;> cases client.DeleteTable <;> simp

theorem useTable_calls (client : NosqlClient) :
    ∃ d, (useTable client).2 =
      List.take d [Event.UpdateRow, Event.GetRow, Event.Query, Event.DeleteRow,
        Event.DeleteTable] := by
  unfold useTable
  cases client.UpdateRow with
  | some e => exact ⟨1, rfl⟩
  | none =>
    cases client.GetRow with
    | some e => exact ⟨2, rfl⟩
    | none =>
      cases client.Query with
      | some e => exact ⟨3, rfl⟩
      | none =>
        cases client.DeleteRow with
        | some e => exact ⟨4, rfl⟩
        | none =>
          cases client.DeleteTable with
          | some e => exact ⟨5, rfl⟩
          | none => exact ⟨5, rfl⟩

theorem useTable_isCall (client : NosqlClient) :
    calls (useTable client).2 = (useTable client).2 := by
  unfold useTable
  cases client.UpdateRow <;> cases client.GetRow <;> cases client.Query <;>
    cases client.DeleteRow <;> cases client.DeleteTable <;> rfl

/-- A call of `useTable` that the service answers with an error is the last
event of `useTable`, occurs once, and makes `useTable` return an error. -/
theorem useTable_fail (client : NosqlClient) (c : Event) (i : Nat)
    (hmem : c ∈ (useTable client).2) (hfail : callFails client c i) :
    (useTable client).2.getLast? = some c ∧ List.count c (useTable client).2 = 1 ∧
      ∃ e, (useTable client).1 = some e := by
  unfold useTable at hmem ⊢
  cases hU : client.UpdateRow with
  | some e =>
    simp only [hU, List.mem_singleton] at hmem ⊢
    subst hmem
    exact ⟨rfl, by decide, _, rfl⟩
  | none =>
    cases hG : client.GetRow with
    | some e =>
      simp only [hU, hG] at hmem ⊢
      cases c <;> simp [callFails, hU, hG] at hmem hfail ⊢
    | none =>
      cases hQ : client.Query with
      | some e =>
        simp only [hU, hG, hQ] at hmem ⊢
        cases c <;> simp [callFails, hU, hG, hQ] at hmem hfail ⊢
      | none =>
        cases hR : client.DeleteRow with
        | some e =>
          simp only [hU, hG, hQ, hR] at hmem ⊢
          cases c <;> simp [callFails, hU, hG, hQ, hR] at hmem hfail ⊢
        | none =>
          cases hT : client.DeleteTable with
          | some e =>
            simp only [hU, hG, hQ, hR, hT] at hmem ⊢
            cases c <;> simp [callFails, hU, hG, hQ, hR, hT] at hmem hfail ⊢
          | none =>
            simp only [hU, hG, hQ, hR, hT] at hmem ⊢
            cases c <;> simp [callFails, hU, hG, hQ, hR, hT] at hmem hfail ⊢

theorem useTable_deleteTable (client : NosqlClient)
    (h : Event.DeleteTable ∈ (useTable client).2) :
    client.UpdateRow = none ∧ client.GetRow = none ∧ client.Query = none ∧
      client.DeleteRow = none := by
  unfold useTable at h
  cases hU : client.UpdateRow <;> cases hG : client.GetRow <;> cases hQ : client.Query <;>
    cases hR : client.DeleteRow <;> cases hT : client.DeleteTable <;>
    simp [hU, hG, hQ, hR, hT] at h ⊢

theorem useTable_uses (client : NosqlClient) :
    ∀ ev, ev ∈ (useTable client).2 → usesTable ev = true := by
  unfold useTable
  cases client.UpdateRow <;> cases client.GetRow <;> cases client.Query <;>
    cases client.DeleteRow <;> cases client.DeleteTable <;> simp [usesTable]

/-- The calls of a list of polls and one-second sleeps are its polls. -/
theorem calls_wait (es : List Event)
    (h : ∀ ev, ev ∈ es → ev = Event.GetWorkRequest ∨ ev = Event.Sleep Second) :
    calls es = List.replicate (polls es) Event.GetWorkRequest := by
  induction es with
  | nil => rfl
  | cons a es ih =>
    have hrest := ih (fun ev hev => h ev (List.mem_cons_of_mem a hev))
    rcases h a (List.mem_cons_self a es) with ha | ha
    · subst ha
      rw [polls_cons_poll, List.replicate_succ, ← hrest]
      rfl
    · subst ha
      rw [polls_cons_sleep, ← hrest]
      rfl

/-- An element that closes a list and occurs no more often in the whole
list than up to and including one of its occurrences has nothing after that
occurrence. -/
theorem post_nil_of_last (l pre post : List Event) (c : Event)
    (hl : l = pre ++ c :: post) (hlast : l.getLast? = some c)
    (hcount : List.count c l ≤ List.count c pre + 1) : post = [] := by
  by_contra hne
  have h1 : l.getLast? = post.getLast? := by
    rw [hl]
    cases pre with
    | nil => exact getLast?_cons_append_of_ne_nil c [] post hne
    | cons a pre =>
      have h2 := getLast?_cons_append_of_ne_nil a pre (c :: post) (by simp)
      have h3 := getLast?_cons_append_of_ne_nil c [] post hne
      rw [List.nil_append] at h3
      exact h2.trans h3
  rw [h1] at hlast
  have hmem : c ∈ post := List.mem_of_getLast?_eq_some hlast
  have hpos : 0 < List.count c post := List.count_pos_iff.mpr hmem
  rw [hl, List.count_append, List.count_cons_self] at hcount
  omega

theorem polls_useTable_append (client : NosqlClient) (es : List Event) :
    polls (Event.CreateTable :: (es ++ (useTable client).2)) = polls es := by
  rw [polls_cons_create, polls_append, useTable_polls, Nat.add_zero]

/-- The service calls of a run, in order: `CreateTable`, the polls, then a
prefix of the five calls that use the table. -/
theorem runExample_calls (client : NosqlClient) (fuel : Nat) :
    ∃ d, calls (runExample client fuel).trace =
      Event.CreateTable ::
        (List.replicate (polls (runExample client fuel).trace) Event.GetWorkRequest ++
          List.take d [Event.UpdateRow, Event.GetRow, Event.Query, Event.DeleteRow,
            Event.DeleteTable]) := by
  have hwait := calls_wait (pollLoop client fuel 0).2 (pollLoop_events client fuel 0)
  rcases runExample_shape client fuel with
    ⟨e, _, hrun⟩ | ⟨_, _, hrun⟩ | ⟨_, err, _, hrun⟩ | ⟨_, _, hrun⟩
  · rw [hrun]
    exact ⟨0, rfl⟩
  · rw [hrun]
    refine ⟨0, ?_⟩
    show Event.CreateTable :: calls (pollLoop client fuel 0).2 = _
    rw [hwait, polls_cons_create]
    simp
  · rw [hrun]
    refine ⟨0, ?_⟩
    show Event.CreateTable :: calls (pollLoop client fuel 0).2 = _
    rw [hwait, polls_cons_create]
    simp
  · rw [hrun]
    obtain ⟨d, hd⟩ := useTable_calls client
    refine ⟨d, ?_⟩
    show Event.CreateTable :: calls ((pollLoop client fuel 0).2 ++ (useTable client).2) = _
    rw [polls_useTable_append]
    unfold calls
    rw [List.filter_append]
    have h1 : List.filter isCall (pollLoop client fuel 0).2 =
        List.replicate (polls (pollLoop client fuel 0).2) Event.GetWorkRequest := hwait
    have h2 : List.filter isCall (useTable client).2 = (useTable client).2 :=
      useTable_isCall client
    rw [h1, h2, hd]

/-- A run that has returned after `CreateTable` succeeded has polled. -/
theorem runExample_polled (client : NosqlClient) (fuel : Nat)
    (hres : (runExample client fuel).result ≠ none) (hcreate : client.CreateTable = none) :
    1 ≤ polls (runExample client fuel).trace := by
  rcases pollLoop_classify client fuel 0 with ⟨hrun, _, _⟩ | ⟨n, _, _, hcount, _, _⟩
  · rw [runExample_running client fuel hcreate hrun] at hres
    exact absurd rfl hres
  · rcases runExample_shape client fuel with
      ⟨e, he, _⟩ | ⟨_, _, hrun⟩ | ⟨_, err, _, hrun⟩ | ⟨_, _, hrun⟩
    · rw [hcreate] at he; cases he
    · rw [hrun, polls_cons_create, hcount]; omega
    · rw [hrun, polls_cons_create, hcount]; omega
    · rw [hrun, polls_useTable_append, hcount]; omega

/-- A run returns nil exactly when every call succeeded and the wait ended
with the status Succeeded. -/
theorem runExample_nil_iff (client : NosqlClient) (fuel : Nat) :
    (runExample client fuel).result = some none ↔
      client.CreateTable = none ∧ WaitSucceeds client fuel ∧ client.UpdateRow = none ∧
        client.GetRow = none ∧ client.Query = none ∧ client.DeleteRow = none ∧
        client.DeleteTable = none := by
  rcases runExample_shape client fuel with
    ⟨e, he, hrun⟩ | ⟨hc, hx, hrun⟩ | ⟨hc, err, hx, hrun⟩ | ⟨hc, hx, hrun⟩
  · rw [hrun]
    constructor
    · intro h; simp at h
    · rintro ⟨h, _⟩; rw [he] at h; cases h
  · rw [hrun]
    constructor
    · intro h; simp at h
    · rintro ⟨_, hw, _⟩
      rw [pollLoop_break_of_waitSucceeds client fuel hw] at hx
      cases hx
  · rw [hrun]
    constructor
    · intro h; simp at h
    · rintro ⟨_, hw, _⟩
      rw [pollLoop_break_of_waitSucceeds client fuel hw] at hx
      cases hx
  · rw [hrun]
    have hw : WaitSucceeds client fuel := (waitSucceeds_iff_break client fuel).mpr hx
    constructor
    · intro h
      have h1 : (useTable client).1 = none := Option.some.inj h
      exact ⟨hc, hw, (useTable_nil_iff client).mp h1⟩
    · rintro ⟨_, _, hrest⟩
      show some (useTable client).1 = some none
      rw [(useTable_nil_iff client).mpr hrest]

/-- A call that the service answers with an error is the last event of the
run, and the run returns a non-nil error. -/
theorem runExample_stops_at_failure (client : NosqlClient) (fuel : Nat)
    (pre post : List Event) (c : Event)
    (hsplit : (runExample client fuel).trace = pre ++ c :: post)
    (hfail : callFails client c (List.count c pre)) :
    post = [] ∧ ∃ e, (runExample client fuel).result = some (some e) := by
  have hmem : c ∈ (runExample client fuel).trace := by
    rw [hsplit]; simp
  have hcnt : List.count c (runExample client fuel).trace =
      List.count c pre + 1 + List.count c post := by
    rw [hsplit, List.count_append, List.count_cons_self]
    omega
  have hpollfail : ∀ m, (∀ j, j < m → Continues (client.GetWorkRequest j)) →
      c = Event.GetWorkRequest → m ≤ List.count c pre := by
    intro m hall hc
    by_contra hlt
    have hcont := hall (List.count c pre) (by omega)
    subst hc
    obtain ⟨e, he⟩ := hfail
    rw [he] at hcont
    exact not_continues_error e hcont
  rcases runExample_shape client fuel with
    ⟨e, he, hrun⟩ | ⟨hc, hx, hrun⟩ | ⟨hc, err, hx, hrun⟩ | ⟨hc, hx, hrun⟩
  · rw [hrun] at hmem hsplit hcnt ⊢
    simp only [List.mem_singleton] at hmem
    subst hmem
    refine ⟨?_, _, rfl⟩
    exact post_nil_of_last _ pre post Event.CreateTable hsplit rfl
      (by simp only [List.count_cons_self, List.count_nil]; omega)
  · exfalso
    rw [hrun] at hmem hcnt
    rcases pollLoop_classify client fuel 0 with ⟨_, hcount, hall⟩ | ⟨n, _, _, _, _, hend⟩
    · simp only [Nat.zero_add] at hall
      rcases List.mem_cons.mp hmem with h | h
      · subst h; exact hfail hc
      · rcases pollLoop_events client fuel 0 c h with h | h
        · have hle := hpollfail fuel hall h
          subst h
          have : polls (Event.CreateTable :: (pollLoop client fuel 0).2) = fuel := by
            rw [polls_cons_create, hcount]
          unfold polls at this
          simp only at hcnt
          omega
        · subst h; exact hfail
    · rcases hend with ⟨_, h⟩ | ⟨_, h⟩ | ⟨_, h⟩ | ⟨e, _, h⟩ <;>
        · rw [hx] at h; cases h
  · rw [hrun] at hmem hsplit hcnt ⊢
    refine ⟨?_, err, rfl⟩
    rcases pollLoop_classify client fuel 0 with ⟨h, _, _⟩ | ⟨n, _, hall, hcount, hlast, _⟩
    · rw [hx] at h; cases h
    · simp only [Nat.zero_add] at hall
      rcases List.mem_cons.mp hmem with h | h
      · subst h; exact absurd hc hfail
      · rcases pollLoop_events client fuel 0 c h with h | h
        · have hle := hpollfail n hall h
          subst h
          have hp : polls (Event.CreateTable :: (pollLoop client fuel 0).2) = n + 1 := by
            rw [polls_cons_create, hcount]
          unfold polls at hp
          refine post_nil_of_last _ pre post Event.GetWorkRequest hsplit
            (getLast?_cons_of_getLast? _ _ _ hlast) ?_
          simp only at hcnt ⊢
          omega
        · subst h; exact absurd hfail id
  · rw [hrun] at hmem hsplit hcnt ⊢
    obtain ⟨n, _, hall, hq, hcount⟩ := pollLoop_break client fuel hx
    have hp : polls (Event.CreateTable ::
        ((pollLoop client fuel 0).2 ++ (useTable client).2)) = n + 1 := by
      rw [polls_useTable_append, hcount]
    have hmem2 : c ∈ (Event.CreateTable :: (pollLoop client fuel 0).2) ++ (useTable client).2 :=
      hmem
    rcases List.mem_append.mp hmem2 with h | h
    · exfalso
      rcases List.mem_cons.mp h with h | h
      · subst h; exact hfail hc
      · rcases pollLoop_events client fuel 0 c h with h | h
        · have hle := hpollfail n hall h
          subst h
          unfold polls at hp
          simp only at hcnt
          have heq : List.count Event.GetWorkRequest pre = n := by omega
          obtain ⟨e, he⟩ := hfail
          rw [heq, hq] at he
          cases he
        · subst h; exact hfail
    · obtain ⟨hlast, hone, e, he⟩ := useTable_fail client c (List.count c pre) h hfail
      refine ⟨?_, ?_⟩
      · have huse := useTable_uses client c h
        have hnot : c ∉ Event.CreateTable :: (pollLoop client fuel 0).2 := by
          intro hin
          rw [wait_events_no_table client fuel c hin] at huse
          cases huse
        have hl : (Event.CreateTable ::
            ((pollLoop client fuel 0).2 ++ (useTable client).2)).getLast? = some c := by
          have hne : (useTable client).2 ≠ [] := by
            intro h0; rw [h0] at h; cases h
          rw [getLast?_cons_append_of_ne_nil _ _ _ hne, hlast]
        refine post_nil_of_last _ pre post c hsplit hl ?_
        have hc1 : List.count c (Event.CreateTable ::
            ((pollLoop client fuel 0).2 ++ (useTable client).2)) = 1 := by
          have hsplit3 : Event.CreateTable ::
              ((pollLoop client fuel 0).2 ++ (useTable client).2) =
              (Event.CreateTable :: (pollLoop client fuel 0).2) ++ (useTable client).2 := rfl
          rw [hsplit3, List.count_append, List.count_eq_zero_of_not_mem hnot, hone]
        have hcnt2 : List.count c (Event.CreateTable ::
            ((pollLoop client fuel 0).2 ++ (useTable client).2)) =
            List.count c pre + 1 + List.count c post := hcnt
        omega
      · exact ⟨e, by show some (useTable client).1 = some (some e); rw [he]⟩

/-- The table is dropped only when every earlier call succeeded. -/
theorem runExample_deleteTable (client : NosqlClient) (fuel : Nat)
    (h : Event.DeleteTable ∈ (runExample client fuel).trace) :
    client.CreateTable = none ∧ WaitSucceeds client fuel ∧ client.UpdateRow = none ∧
      client.GetRow = none ∧ client.Query = none ∧ client.DeleteRow = none := by
  rcases runExample_shape client fuel with
    ⟨e, _, hrun⟩ | ⟨_, _, hrun⟩ | ⟨_, err, _, hrun⟩ | ⟨hc, hx, hrun⟩
  · rw [hrun] at h
    simp at h
  · rw [hrun] at h
    have := wait_events_no_table client fuel _ h
    cases this
  · rw [hrun] at h
    have := wait_events_no_table client fuel _ h
    cases this
  · rw [hrun] at h
    have h2 : Event.DeleteTable ∈
        (Event.CreateTable :: (pollLoop client fuel 0).2) ++ (useTable client).2 := h
    rcases List.mem_append.mp h2 with h3 | h3
    · have := wait_events_no_table client fuel _ h3
      cases this
    · exact ⟨hc, (waitSucceeds_iff_break client fuel).mpr hx, useTable_deleteTable client h3⟩

/-- The calls of `useTable` are exactly the first `tableCalls` of the five
table calls. -/
theorem useTable_calls_exact (client : NosqlClient) :
    (useTable client).2 = List.take (tableCalls client) tableCallOrder := by
  unfold useTable tableCalls
  cases client.UpdateRow <;> cases client.GetRow <;> cases client.Query <;>
    cases client.DeleteRow <;> cases client.DeleteTable <;> rfl

/-- The service calls of a run whose wait succeeds at poll number `n`. -/
theorem runExample_calls_success (client : NosqlClient) (fuel n : Nat)
    (hcreate : client.CreateTable = none) (hn : n < fuel)
    (hall : ∀ j, j < n → Continues (client.GetWorkRequest j))
    (hq : client.GetWorkRequest n = Except.ok WorkRequestStatusSucceeded) :
    calls (runExample client fuel).trace =
      Event.CreateTable ::
        (List.replicate (n + 1) Event.GetWorkRequest ++
          List.take (tableCalls client) tableCallOrder) := by
  have hx := pollLoop_break_of_waitSucceeds client fuel ⟨n, hn, hall, hq⟩
  have hstop : ¬ Continues (client.GetWorkRequest n) := by
    rw [hq]
    exact not_continues_terminal _ (Or.inl rfl)
  obtain ⟨hcount, _, _⟩ := pollLoop_stops_at client fuel n hn hall hstop
  have hwait := calls_wait (pollLoop client fuel 0).2 (pollLoop_events client fuel 0)
  rw [runExample_break client fuel hcreate hx]
  show Event.CreateTable :: calls ((pollLoop client fuel 0).2 ++ (useTable client).2) = _
  unfold calls
  rw [List.filter_append]
  have h1 : List.filter isCall (pollLoop client fuel 0).2 =
      List.replicate (polls (pollLoop client fuel 0).2) Event.GetWorkRequest := hwait
  have h2 : List.filter isCall (useTable client).2 = (useTable client).2 :=
    useTable_isCall client
  rw [h1, h2, hcount, useTable_calls_exact]

/-- The service calls of a run whose wait does not succeed: `CreateTable`
and the polls, nothing else. -/
theorem runExample_calls_no_success (client : NosqlClient) (fuel : Nat)
    (h : ¬ (client.CreateTable = none ∧ WaitSucceeds client fuel)) :
    calls (runExample client fuel).trace =
      Event.CreateTable ::
        List.replicate (polls (runExample client fuel).trace) Event.GetWorkRequest := by
  have hwait := calls_wait (pollLoop client fuel 0).2 (pollLoop_events client fuel 0)
  rcases runExample_shape client fuel with
    ⟨e, _, hrun⟩ | ⟨_, _, hrun⟩ | ⟨_, err, _, hrun⟩ | ⟨hc, hx, _⟩
  · rw [hrun]
    rfl
  · rw [hrun]
    show Event.CreateTable :: calls (pollLoop client fuel 0).2 = _
    rw [hwait, polls_cons_create]
  · rw [hrun]
    show Event.CreateTable :: calls (pollLoop client fuel 0).2 = _
    rw [hwait, polls_cons_create]
  · exact absurd ⟨hc, (waitSucceeds_iff_break client fuel).mpr hx⟩ h

/-- A run whose `CreateTable` fails issues no other call. -/
theorem runExample_trace_create_failed (client : NosqlClient) (fuel : Nat)
    (h : client.CreateTable ≠ none) :
    (runExample client fuel).trace = [Event.CreateTable] := by
  cases hc : client.CreateTable with
  | none => exact absurd hc h
  | some e => rw [runExample_create_failed client fuel e hc]

/-- C10: the service calls of every run of `runExample` are, in order,
`CreateTable`, the polls, and the table calls `UpdateRow`, `GetRow`,
`Query`, `DeleteRow`, `DeleteTable`.  When `CreateTable` succeeded and the
wait ends with the status Succeeded at poll number `n`, the calls of the run
are exactly `CreateTable`, `n + 1` polls and the first `tableCalls` table
calls: all five when none of them fails, otherwise those up to and including
the first failing one.  When the wait does not succeed the calls are
`CreateTable` and the polls alone, and when `CreateTable` fails it is the
only event.  A run that returned after `CreateTable` succeeded has polled
at least once.  The run returns nil exactly when `CreateTable` succeeded,
the wait ended with the status Succeeded and the five later calls succeeded.
A call that the service answers with an error is the last event of the trace
and the run returns a non-nil error; in particular `DeleteTable` is in the
trace only when every earlier call succeeded. -/
theorem calls_in_order_stop_at_first_error (client : NosqlClient) (fuel : Nat) :
    (∀ n, client.CreateTable = none → n < fuel →
      (∀ j, j < n → Continues (client.GetWorkRequest j)) →
      client.GetWorkRequest n = Except.ok WorkRequestStatusSucceeded →
      calls (runExample client fuel).trace =
        Event.CreateTable ::
          (List.replicate (n + 1) Event.GetWorkRequest ++
            List.take (tableCalls client) tableCallOrder)) ∧
    (¬ (client.CreateTable = none ∧ WaitSucceeds client fuel) →
      calls (runExample client fuel).trace =
        Event.CreateTable ::
          List.replicate (polls (runExample client fuel).trace) Event.GetWorkRequest) ∧
    (client.CreateTable ≠ none → (runExample client fuel).trace = [Event.CreateTable]) ∧
    (∃ d, calls (runExample client fuel).trace =
      Event.CreateTable ::
        (List.replicate (polls (runExample client fuel).trace) Event.GetWorkRequest ++
          List.take d [Event.UpdateRow, Event.GetRow, Event.Query, Event.DeleteRow,
            Event.DeleteTable])) ∧
    ((runExample client fuel).result ≠ none → client.CreateTable = none →
      1 ≤ polls (runExample client fuel).trace) ∧
    ((runExample client fuel).result = some none ↔
      client.CreateTable = none ∧ WaitSucceeds client fuel ∧ client.UpdateRow = none ∧
        client.GetRow = none ∧ client.Query = none ∧ client.DeleteRow = none ∧
        client.DeleteTable = none) ∧
    (∀ pre c post, (runExample client fuel).trace = pre ++ c :: post →
      callFails client c (List.count c pre) →
      post = [] ∧ ∃ e, (runExample client fuel).result = some (some e)) ∧
    (Event.DeleteTable ∈ (runExample client fuel).trace →
      client.CreateTable = none ∧ WaitSucceeds client fuel ∧ client.UpdateRow = none ∧
        client.GetRow = none ∧ client.Query = none ∧ client.DeleteRow = none) :=
  ⟨fun n hcreate hn hall hq => runExample_calls_success client fuel n hcreate hn hall hq,
    runExample_calls_no_success client fuel,
    runExample_trace_create_failed client fuel,
    runExample_calls client fuel, runExample_polled client fuel,
    runExample_nil_iff client fuel,
    fun pre c post => runExample_stops_at_failure client fuel pre post c,
    runExample_deleteTable client fuel⟩

/-- Witness of C10.  When the wait succeeds at the first poll and `Query`
fails, the calls are `CreateTable`, one poll, `UpdateRow`, `GetRow`, `Query`;
the run stops there, returns a non-nil error and never calls `DeleteTable`.
When every call succeeds and the wait succeeds at the third poll, all five
table calls are issued and the run returns nil. -/
theorem calls_in_order_stop_at_first_error_witness :
    calls (runExample queryCallFails 1).trace =
        [Event.CreateTable, Event.GetWorkRequest, Event.UpdateRow, Event.GetRow,
          Event.Query] ∧
      (runExample queryCallFails 1).trace =
        [Event.CreateTable, Event.GetWorkRequest, Event.UpdateRow, Event.GetRow,
          Event.Query] ∧
      (∃ e, (runExample queryCallFails 1).result = some (some e)) ∧
      Event.DeleteTable ∉ (runExample queryCallFails 1).trace ∧
      calls (runExample threePolls 3).trace =
        [Event.CreateTable, Event.GetWorkRequest, Event.GetWorkRequest,
          Event.GetWorkRequest, Event.UpdateRow, Event.GetRow, Event.Query,
          Event.DeleteRow, Event.DeleteTable] ∧
      (runExample threePolls 3).result = some none :=
  have h := calls_in_order_stop_at_first_error queryCallFails 1
  have h3 := calls_in_order_stop_at_first_error threePolls 3
  ⟨h.1 0 rfl (by decide) (fun j hj => absurd hj (Nat.not_lt_zero j)) rfl,
    by decide,
    (h.2.2.2.2.2.2.1
      [Event.CreateTable, Event.GetWorkRequest, Event.UpdateRow, Event.GetRow]
      Event.Query [] (by decide)
      (show queryCallFails.Query ≠ none from fun h0 => Option.noConfusion h0)).2,
    fun hin => Option.noConfusion (h.2.2.2.2.2.2.2 hin).2.2.2.2.1,
    h3.1 2 rfl (by decide)
      (fun j hj => continues_of_pending _ (threePolls_pending j hj)) rfl,
    by decide⟩

end OciNosqlExample
